import Mathlib

/-!
# Verification of the cook recipe-recommendation engine

A shallow embedding of the TypeScript sources of the `cook` MCP server
(`src/utils/recipeUtils.ts`, `src/utils/mealPlanUtils.ts`,
`src/utils/shoppingListUtils.ts`, `src/utils/dishCombinationUtils.ts`,
`src/tools/recommendMealPlan.ts`, `src/tools/recommendDishCombination.ts`)
together with proofs settling the specification claims.

Modelling conventions:
* JavaScript numbers are modelled as exact rationals (`ℚ`); `Math.round`
  is `jsRound` (round half towards +infinity, as in JS).
* The regular expression `^(\d+(?:\.\d+)?)\s*(.*)$` used by the amount
  parser is implemented character by character (`parseNumericAmount`).
* `Math.random()`-driven choices are parameterised by a stream
  `rand : ℕ → ℕ` together with a consumption counter; the selected index
  is `rand k % length`, which ranges over exactly the indices the source
  can produce.
* Clock/locale dependent fields (generated ids, timestamps, display
  names) are omitted from the embedded structures: they are produced
  from `Date.now()` / `Math.random()` and are not touched by any claim.
* `localeCompare`-based sorting is parameterised by an abstract
  comparator `lc : String → String → ℤ`.
-/

set_option maxRecDepth 10000

/-! ## JavaScript numeric primitives -/

/-- `Math.round` on an exact rational: round half towards +infinity. -/
def jsRound (x : ℚ) : ℤ :=
  Int.floor (x + 1 / 2)

/-- The decimal digit character for `d < 10`. -/
def digitChar (d : ℕ) : Char :=
  Char.ofNat (48 + d)

/-- Fuel-driven digit expansion; the fuel only bounds the recursion
depth (`n ≤ fuel` always holds at call sites, and each step divides the
argument by 10), so the zero-fuel branch is unreachable from
`natDigits`. Structural recursion keeps the function kernel-reducible. -/
def natDigitsAux (fuel n : ℕ) : List Char :=
  match fuel with
  | 0 => [digitChar n]
  | fuel + 1 =>
      if n < 10 then [digitChar n]
      else natDigitsAux fuel (n / 10) ++ [digitChar (n % 10)]

/-- The decimal digits of a natural number, most significant first. -/
def natDigits (n : ℕ) : List Char :=
  natDigitsAux n n

/-- Decimal rendering of a natural number. -/
def natRepr (n : ℕ) : String :=
  String.mk (natDigits n)

/-- Decimal rendering of an integer (JS template-string rendering). -/
def intRepr (i : ℤ) : String :=
  if i < 0 then "-" ++ natRepr i.natAbs else natRepr i.toNat

/-- Numeric value of a list of decimal digit characters (as `parseInt` /
`parseFloat` read them). -/
def digitsVal (ds : List Char) : ℕ :=
  ds.foldl (fun a c => 10 * a + (c.toNat - 48)) 0

/-- JS rendering of the rational `k / 100` for `k : ℕ`: an integer part,
and a fractional part with trailing zeroes stripped (`Math.round(x*100)/100`
always yields such a value, and JS prints it this way). -/
def formatCentsNat (k : ℕ) : List Char :=
  let ip := k / 100
  let fr := k % 100
  if fr = 0 then natDigits ip
  else if fr % 10 = 0 then natDigits ip ++ '.' :: natDigits (fr / 10)
  else if fr < 10 then natDigits ip ++ '.' :: '0' :: natDigits fr
  else natDigits ip ++ '.' :: natDigits fr

/-- JS rendering of the rational `k / 100` for `k : ℤ`. -/
def formatCents (k : ℤ) : List Char :=
  if k < 0 then '-' :: formatCentsNat k.natAbs else formatCentsNat k.toNat

/-- Whether `pat` occurs as a contiguous sublist of `l`
(JS `String.prototype.includes`). -/
def subOccurs (pat : List Char) : List Char → Bool
  | [] => pat.isEmpty
  | c :: rest => pat.isPrefixOf (c :: rest) || subOccurs pat rest

/-- JS `s.includes(pat)`. -/
def strIncludes (s pat : String) : Bool :=
  subOccurs pat.data s.data

/-! ## The amount micro-parser

The sources match ingredient amounts against the anchored regular
expression `^(\d+(?:\.\d+)?)\s*(.*)$`: a non-empty run of ASCII digits,
an optional dot followed by a non-empty run of digits, optional
whitespace, and the remainder (the "unit"). -/

/-- The `(?:\.\d+)?` group: if the text after the integer digits starts
with a dot followed by at least one digit, split off that digit run;
otherwise the group matches nothing. -/
def fracSplit (afterInt : List Char) : List Char × List Char :=
  match afterInt with
  | c :: t =>
      if c = '.' then
        if (t.takeWhile Char.isDigit).isEmpty then ([], afterInt)
        else (t.takeWhile Char.isDigit, t.dropWhile Char.isDigit)
      else ([], afterInt)
  | [] => ([], afterInt)

/-- Match `^(\d+(?:\.\d+)?)\s*(.*)$` against a character list, returning
the `parseFloat` value of group 1 and the characters of group 2. -/
def parseNumericAmountL (cs : List Char) : Option (ℚ × List Char) :=
  let intDigits := cs.takeWhile Char.isDigit
  let afterInt := cs.dropWhile Char.isDigit
  if intDigits.isEmpty then none
  else
    let fracPair := fracSplit afterInt
    let value : ℚ :=
      (digitsVal intDigits : ℚ) + (digitsVal fracPair.1 : ℚ) / ((10 : ℚ) ^ fracPair.1.length)
    some (value, fracPair.2.dropWhile Char.isWhitespace)

/-- String-level wrapper of the amount parser. -/
def parseNumericAmount (s : String) : Option (ℚ × String) :=
  match parseNumericAmountL s.data with
  | some (v, u) => some (v, String.mk u)
  | none => none

/-! ## Duration parsing and formatting (`parseTimeInMinutes`,
`formatTimeFromMinutes`, identical private copies exist in several
source files) -/

theorem length_dropWhile_le {α : Type} (p : α → Bool) (l : List α) :
    (l.dropWhile p).length ≤ l.length := by
  induction l with
  | nil => simp
  | cons a l ih =>
      by_cases h : p a
      · simp only [List.dropWhile_cons, h, if_true, List.length_cons]
        omega
      · simp [List.dropWhile_cons, h]

/-- Fuel-driven scan for the first maximal digit run immediately
followed by `pat` — the behaviour of an unanchored `/(\d+)pat/` match:
a match can only begin at the start of a maximal digit run, and
backtracking inside a run cannot help. Each step shortens the list, so
fuel `cs.length` (supplied by `firstNumberBefore`) never runs out. -/
def firstNumberBeforeAux (pat : List Char) (fuel : ℕ) (cs : List Char) : Option ℕ :=
  match fuel, cs with
  | _, [] => none
  | 0, _ :: _ => none
  | fuel + 1, c :: rest =>
      if c.isDigit then
        let run := (c :: rest).takeWhile Char.isDigit
        let after := (c :: rest).dropWhile Char.isDigit
        if pat.isPrefixOf after then some (digitsVal run)
        else firstNumberBeforeAux pat fuel after
      else firstNumberBeforeAux pat fuel rest

/-- First `/(\d+)pat/` match value in `cs`. -/
def firstNumberBefore (pat : List Char) (cs : List Char) : Option ℕ :=
  firstNumberBeforeAux pat cs.length cs

/-- `parseTimeInMinutes`: sum of the hour match (`/(\d+)小时/`) times 60
and the minute match (`/(\d+)分钟/`); an absent match contributes 0. -/
def parseTimeInMinutes (timeStr : String) : ℕ :=
  (match firstNumberBefore ['小', '时'] timeStr.data with
   | some h => h * 60
   | none => 0) +
  (match firstNumberBefore ['分', '钟'] timeStr.data with
   | some m => m
   | none => 0)

/-- `formatTimeFromMinutes`. -/
def formatTimeFromMinutes (minutes : ℕ) : String :=
  if minutes < 60 then natRepr minutes ++ "分钟"
  else
    let hours := minutes / 60
    let remainingMinutes := minutes % 60
    if remainingMinutes = 0 then natRepr hours ++ "小时"
    else natRepr hours ++ "小时" ++ natRepr remainingMinutes ++ "分钟"

/-! ## Data model

Closed string enums of `src/types` become inductive types; the engine
compares some of them as strings, so each gets its Chinese display name.
Structure fields that no embedded function reads (descriptions,
image/source URLs, timestamps, generated ids) are omitted. -/

/-- `RecipeCategory`: 水产 早餐 调味料 甜品 饮品 荤菜 半成品 汤羹 主食 素菜. -/
inductive RecipeCategory where
  | aquatic | breakfastCat | seasoning | dessertCat | beverage
  | meat | semiPrepared | soup | staple | vegetarian
deriving DecidableEq

/-- The Chinese name of a recipe category (the enum's string value). -/
def catName : RecipeCategory → String
  | .aquatic => "水产"
  | .breakfastCat => "早餐"
  | .seasoning => "调味料"
  | .dessertCat => "甜品"
  | .beverage => "饮品"
  | .meat => "荤菜"
  | .semiPrepared => "半成品"
  | .soup => "汤羹"
  | .staple => "主食"
  | .vegetarian => "素菜"

/-- `DifficultyLevel`: 简单 中等 困难. -/
inductive DifficultyLevel where
  | easy | medium | hard
deriving DecidableEq

/-- `cookingSkillLevel` / `skillLevel`: 初学者 中级 高级. -/
inductive SkillLevel where
  | beginner | intermediate | advanced
deriving DecidableEq

/-- `MealType`: 早餐 午餐 晚餐 加餐 夜宵. -/
inductive MealType where
  | breakfastMeal | lunch | dinner | snackMeal | lateNight
deriving DecidableEq

/-- `DishRole`: 主菜 配菜 汤品 主食 开胃菜 甜品. -/
inductive DishRole where
  | mainDish | sideDish | soupDish | stapleFood | appetizer | dessertDish
deriving DecidableEq

/-- Dish priority: 必选 推荐 可选. -/
inductive DishPriority where
  | required | recommended | optionalDish
deriving DecidableEq

/-- `CombinationType`: 家常搭配 宴客搭配 节日搭配 快手搭配 营养搭配 季节搭配. -/
inductive CombinationType where
  | homeStyle | banquet | holiday | quick | nutritional | seasonal
deriving DecidableEq

/-- `ShoppingCategory`: 蔬菜 水果 肉类 海鲜 蛋奶 调料 主食 零食 饮品 冷冻食品 罐头 其他. -/
inductive ShoppingCategory where
  | vegetables | fruits | meats | seafood | eggsDairy | condiments
  | staples | snacks | beverages | frozen | canned | others
deriving DecidableEq

/-- Shopping priority: 高 中 低. -/
inductive ShoppingPriority where
  | high | mid | low
deriving DecidableEq

/-- `Ingredient` (name, amount string, optional notes). -/
structure Ingredient where
  name : String
  amount : String
  notes : Option String
deriving DecidableEq

/-- `CookingStep`; the optional duration/temperature/tips strings are
presentation data unused by the engine and are omitted. -/
structure CookingStep where
  stepNumber : ℕ
  instruction : String
deriving DecidableEq

/-- `NutritionalInfo`; only `calories` is ever read by the engine. -/
structure NutritionalInfo where
  calories : Option ℚ
deriving DecidableEq

/-- `Recipe`. `cookingMethods` entries are matched as strings (炒 蒸 炖)
by the engine, so they are kept as strings. Omitted source fields
(description, totalTime, tips, variations, imageUrl, source, dateAdded,
lastModified) are never read by the embedded engine functions. -/
structure Recipe where
  id : String
  name : String
  category : RecipeCategory
  difficulty : DifficultyLevel
  servings : ℕ
  prepTime : String
  cookTime : String
  ingredients : List Ingredient
  steps : List CookingStep
  tags : List String
  cookingMethods : List String
  nutritionalInfo : Option NutritionalInfo
deriving DecidableEq

instance : Inhabited Recipe :=
  ⟨{ id := "", name := "", category := .meat, difficulty := .easy, servings := 0,
     prepTime := "", cookTime := "", ingredients := [], steps := [], tags := [],
     cookingMethods := [], nutritionalInfo := none }⟩

/-! ## `recipeUtils.ts` -/

/-- The qualifier amounts that are never rescaled. -/
def specialCases : List String :=
  ["适量", "少许", "一点", "若干"]

/-- `scaleIngredientAmount` (recipeUtils.ts): on a regex match, multiply
the numeric part by the factor, round to 2 decimals
(`Math.round(x*100)/100`) and append the captured unit; otherwise the
amount — whether a qualifier or unparsable — is returned unchanged. -/
def scaleIngredientAmount (amount : String) (scaleFactor : ℚ) : String :=
  match parseNumericAmount amount with
  | some (originalNum, unit) =>
      String.mk (formatCents (jsRound (originalNum * scaleFactor * 100))) ++ unit
  | none =>
      if specialCases.any (fun special => strIncludes amount special) then amount
      else amount

/-- `scaleRecipeIngredients`. -/
def scaleRecipeIngredients (recipe : Recipe) (targetServings : ℕ) : Recipe :=
  let scaleFactor : ℚ := (targetServings : ℚ) / (recipe.servings : ℚ)
  let scaledIngredients := recipe.ingredients.map fun ingredient =>
    { ingredient with amount := scaleIngredientAmount ingredient.amount scaleFactor }
  { recipe with servings := targetServings, ingredients := scaledIngredients }

/-! ## `mealPlanUtils.ts` -/

/-- `MealPlanPreferences`; `timeConstraints` and `nutritionalGoals` are
never read by the generation code and are omitted. -/
structure MealPlanPreferences where
  numberOfPeople : ℕ
  dietaryRestrictions : Option (List String)
  allergies : Option (List String)
  preferredCategories : Option (List String)
  excludedCategories : Option (List String)
  budgetLevel : Option String
  cookingSkillLevel : Option SkillLevel
deriving DecidableEq

/-- `PlannedMeal`. -/
structure PlannedMeal where
  mealType : MealType
  recipe : Recipe
  servings : ℕ
  notes : String
deriving DecidableEq

/-- `DailyMealPlan` (`day` keeps its Chinese string form). -/
structure DailyMealPlan where
  day : String
  date : String
  meals : List PlannedMeal
  totalCalories : ℚ
  notes : String
deriving DecidableEq

/-- `WeeklyMealPlan`; the generated id/name and the creation timestamps
come from the clock and are omitted. -/
structure WeeklyMealPlan where
  startDate : String
  endDate : String
  preferences : MealPlanPreferences
  dailyPlans : List DailyMealPlan
deriving DecidableEq

/-- The skill → allowed difficulty mapping shared by both filters. -/
def skillMap : SkillLevel → List DifficultyLevel
  | .beginner => [.easy]
  | .intermediate => [.easy, .medium]
  | .advanced => [.easy, .medium, .hard]

/-- `filterRecipesByPreferences` (mealPlanUtils.ts): dietary
restrictions, excluded categories, soft preferred categories, then
skill level, applied in source order. -/
def filterRecipesByPreferences (recipes : List Recipe)
    (preferences : MealPlanPreferences) : List Recipe :=
  let f1 :=
    match preferences.dietaryRestrictions with
    | some restrictions =>
        if 0 < restrictions.length then
          recipes.filter fun recipe =>
            !(decide ("素食" ∈ restrictions) && decide (recipe.category = RecipeCategory.meat))
              && !(decide ("无海鲜" ∈ restrictions) && decide (recipe.category = RecipeCategory.aquatic))
        else recipes
    | none => recipes
  let f2 :=
    match preferences.excludedCategories with
    | some excluded =>
        if 0 < excluded.length then
          f1.filter fun recipe => !(decide (catName recipe.category ∈ excluded))
        else f1
    | none => f1
  let f3 :=
    match preferences.preferredCategories with
    | some preferred =>
        if 0 < preferred.length then
          let pref := f2.filter fun recipe => decide (catName recipe.category ∈ preferred)
          if 0 < pref.length then pref else f2
        else f2
    | none => f2
  match preferences.cookingSkillLevel with
  | some skill => f3.filter fun recipe => decide (recipe.difficulty ∈ skillMap skill)
  | none => f3

/-- `selectRandomRecipe`, driven by the random stream at index `k`; the
source indexes with `Math.floor(Math.random()*length)`, whose possible
values are exactly `0 … length-1`, i.e. `rand k % length`. Callers
guarantee a non-empty list, so the default is never produced. -/
def selectRandomRecipe (rand : ℕ → ℕ) (k : ℕ) (recipes : List Recipe) : Recipe :=
  recipes.getD (rand k % recipes.length) default

/-- `calculateDailyCalories`; missing nutritional info counts as 0
(`meal.recipe.nutritionalInfo?.calories || 0`). Division by a zero
`servings` yields `Infinity` in JS and `0` here; no claim touches that
case. -/
def calculateDailyCalories (meals : List PlannedMeal) : ℚ :=
  meals.foldl
    (fun total meal =>
      let recipeCalories : ℚ :=
        match meal.recipe.nutritionalInfo with
        | some info => info.calories.getD 0
        | none => 0
      total + recipeCalories / (meal.recipe.servings : ℚ) * (meal.servings : ℚ))
    0

/-- One `if (pool.length > 0) { meals.push({...selectRandomRecipe...}) }`
block of `generateDailyMealPlan`, threading the random counter. -/
def pushMealIf (rand : ℕ → ℕ) (state : List PlannedMeal × ℕ) (mealType : MealType)
    (pool : List Recipe) (servings : ℕ) (note : String) : List PlannedMeal × ℕ :=
  if 0 < pool.length then
    (state.1 ++ [{ mealType, recipe := selectRandomRecipe rand state.2 pool,
                   servings, notes := note }], state.2 + 1)
  else state

/-- `generateDailyMealPlan`: breakfast from the 早餐 category or tag,
lunch from 荤菜/素菜/主食/汤羹, dinner from 荤菜/素菜/水产/汤羹; a slot
with no eligible recipe is simply omitted. -/
def generateDailyMealPlan (rand : ℕ → ℕ) (k : ℕ) (recipes : List Recipe)
    (preferences : MealPlanPreferences) (day date : String) : DailyMealPlan × ℕ :=
  let s0 : List PlannedMeal × ℕ := ([], k)
  let breakfastRecipes := recipes.filter fun r =>
    decide (r.category = RecipeCategory.breakfastCat) || decide ("早餐" ∈ r.tags)
  let s1 := pushMealIf rand s0 .breakfastMeal breakfastRecipes preferences.numberOfPeople
    "营养早餐，开启美好一天"
  let lunchRecipes := recipes.filter fun r =>
    decide (catName r.category ∈ ["荤菜", "素菜", "主食", "汤羹"])
  let s2 := pushMealIf rand s1 .lunch lunchRecipes preferences.numberOfPeople
    "丰富午餐，补充能量"
  let dinnerRecipes := recipes.filter fun r =>
    decide (catName r.category ∈ ["荤菜", "素菜", "水产", "汤羹"])
  let s3 := pushMealIf rand s2 .dinner dinnerRecipes preferences.numberOfPeople
    "营养晚餐，健康生活"
  ({ day, date, meals := s3.1, totalCalories := calculateDailyCalories s3.1,
     notes := day ++ "的营养搭配" }, s3.2)

/-- The fixed `daysOfWeek` list. -/
def daysOfWeek : List String :=
  ["周一", "周二", "周三", "周四", "周五", "周六", "周日"]

/-- `generateWeeklyMealPlan`: filter once, then generate 7 daily plans.
The concrete dates come from the clock and are passed in as `dates`;
`startDate`/`endDate` likewise. -/
def generateWeeklyMealPlan (rand : ℕ → ℕ) (recipes : List Recipe)
    (preferences : MealPlanPreferences) (dates : ℕ → String)
    (startDate endDate : String) : WeeklyMealPlan :=
  let suitableRecipes := filterRecipesByPreferences recipes preferences
  let result := (List.range 7).foldl
    (fun (acc : List DailyMealPlan × ℕ) i =>
      let dayResult := generateDailyMealPlan rand acc.2 suitableRecipes preferences
        (daysOfWeek.getD i "") (dates i)
      (acc.1 ++ [dayResult.1], dayResult.2))
    ([], 0)
  { startDate, endDate, preferences, dailyPlans := result.1 }

/-- `validateMealPlanPreferences`. -/
def validateMealPlanPreferences (preferences : MealPlanPreferences) :
    Bool × List String :=
  let errors :=
    (if preferences.numberOfPeople ≤ 0 then ["Number of people must be greater than 0"] else [])
      ++ (if 20 < preferences.numberOfPeople then ["Number of people cannot exceed 20"] else [])
  (errors.isEmpty, errors)

/-! ## `shoppingListUtils.ts` -/

/-- `ShoppingItem`; the generated `id` (clock + randomness) is omitted,
`unit` is never set by the source and is omitted. -/
structure ShoppingItem where
  name : String
  category : ShoppingCategory
  quantity : String
  estimatedPrice : Option ℚ
  priority : ShoppingPriority
  notes : Option String
  recipeIds : List String
  recipeNames : List String
  isPurchased : Bool
  alternatives : List String
deriving DecidableEq

/-- `ShoppingSection`. -/
structure ShoppingSection where
  category : ShoppingCategory
  items : List ShoppingItem
  totalEstimatedCost : ℚ
deriving DecidableEq

/-- `ShoppingList`; generated id/name/description and timestamps
omitted. -/
structure ShoppingList where
  sections : List ShoppingSection
  totalItems : ℕ
  totalEstimatedCost : Option ℚ
deriving DecidableEq

/-- `ShoppingListRequest` (the `recipeIds`/`mealPlanId` metadata fields
are not read by the generation code). -/
structure ShoppingListRequest where
  numberOfPeople : ℕ
  consolidateItems : Bool
  includePriceEstimates : Bool
  excludeCategories : Option (List ShoppingCategory)
deriving DecidableEq

/-- `scaleIngredientAmount` (shoppingListUtils.ts): same numeric branch
as the recipeUtils copy, and a plain pass-through otherwise. -/
def scaleIngredientAmountSL (amount : String) (scaleFactor : ℚ) : String :=
  match parseNumericAmount amount with
  | some (originalNum, unit) =>
      String.mk (formatCents (jsRound (originalNum * scaleFactor * 100))) ++ unit
  | none => amount

/-- `combineQuantities`: sum and re-round when both sides parse with an
identical unit, otherwise the literal concatenation. -/
def combineQuantities (qty1 qty2 : String) : String :=
  match parseNumericAmount qty1, parseNumericAmount qty2 with
  | some (n1, u1), some (n2, u2) =>
      if u1 = u2 then String.mk (formatCents (jsRound ((n1 + n2) * 100))) ++ u1
      else qty1 ++ " + " ++ qty2
  | some _, none => qty1 ++ " + " ++ qty2
  | none, some _ => qty1 ++ " + " ++ qty2
  | none, none => qty1 ++ " + " ++ qty2

/-- The ordered keyword table of `categorizeIngredient`
(`Object.entries` iterates string keys in insertion order). -/
def categoryKeywords : List (ShoppingCategory × List String) :=
  [(.vegetables, ["白菜", "萝卜", "土豆", "番茄", "黄瓜", "茄子", "豆角", "菠菜", "韭菜", "芹菜", "洋葱", "大蒜", "生姜"]),
   (.fruits, ["苹果", "香蕉", "橙子", "梨", "葡萄", "草莓", "西瓜", "柠檬"]),
   (.meats, ["猪肉", "牛肉", "羊肉", "鸡肉", "鸭肉", "排骨", "肉丝", "肉片"]),
   (.seafood, ["鱼", "虾", "蟹", "贝", "鱿鱼", "带鱼", "黄鱼", "鲈鱼"]),
   (.eggsDairy, ["鸡蛋", "鸭蛋", "牛奶", "酸奶", "奶酪", "黄油"]),
   (.staples, ["大米", "面粉", "面条", "馒头", "面包", "土豆"]),
   (.condiments, ["盐", "糖", "醋", "酱油", "料酒", "胡椒", "八角", "桂皮", "花椒", "辣椒"]),
   (.frozen, ["冷冻", "速冻"]),
   (.canned, ["罐装", "罐头"]),
   (.beverages, ["茶", "咖啡", "果汁", "汽水"]),
   (.snacks, ["饼干", "薯片", "坚果"]),
   (.others, [])]

/-- `categorizeIngredient`: first keyword match wins, fallback 其他. -/
def categorizeIngredient (ingredientName : String) : ShoppingCategory :=
  match categoryKeywords.find? (fun entry =>
      entry.2.any fun keyword => strIncludes ingredientName keyword) with
  | some entry => entry.1
  | none => .others

/-- The per-category price ranges of `estimatePrice`. -/
def priceRanges : ShoppingCategory → ℕ × ℕ
  | .vegetables => (2, 8)
  | .fruits => (5, 15)
  | .meats => (15, 40)
  | .seafood => (20, 60)
  | .eggsDairy => (3, 12)
  | .staples => (2, 10)
  | .condiments => (1, 8)
  | .frozen => (8, 25)
  | .canned => (5, 15)
  | .beverages => (3, 12)
  | .snacks => (5, 20)
  | .others => (2, 15)

/-- `estimatePrice`: midpoint of the category range, rounded. -/
def estimatePrice (_ingredientName : String) (category : ShoppingCategory) : Option ℚ :=
  let range := priceRanges category
  some ((jsRound (((range.1 : ℚ) + (range.2 : ℚ)) / 2) : ℚ))

/-- `determinePriority`. -/
def determinePriority (ingredientName : String) (category : ShoppingCategory) :
    ShoppingPriority :=
  if ["盐", "油", "米", "面", "蛋", "奶"].any (fun item => strIncludes ingredientName item) then
    .high
  else if category = .snacks ∨ category = .beverages then .low
  else .mid

/-- The `getAlternatives` lookup table. -/
def alternativesTable : List (String × List String) :=
  [("猪肉", ["牛肉", "鸡肉"]),
   ("牛肉", ["猪肉", "羊肉"]),
   ("鸡肉", ["鸭肉", "猪肉"]),
   ("白菜", ["菠菜", "小白菜"]),
   ("土豆", ["红薯", "山药"]),
   ("番茄", ["西红柿"]),
   ("生抽", ["老抽", "酱油"]),
   ("料酒", ["黄酒", "白酒"])]

/-- `getAlternatives`. -/
def getAlternatives (ingredientName : String) : List String :=
  match alternativesTable.find? (fun entry => entry.1 = ingredientName) with
  | some entry => entry.2
  | none => []

/-- Look a key up in the insertion-ordered map (JS `Map.prototype.get`). -/
def mapFind (m : List (String × ShoppingItem)) (key : String) : Option ShoppingItem :=
  match m.find? (fun entry => entry.1 = key) with
  | some entry => some entry.2
  | none => none

/-- Update the entry of `key` in place (JS mutation of the stored item
keeps the insertion position). -/
def mapUpdate (m : List (String × ShoppingItem)) (key : String)
    (f : ShoppingItem → ShoppingItem) : List (String × ShoppingItem) :=
  m.map fun entry => if entry.1 = key then (entry.1, f entry.2) else entry

/-- Processing of a single ingredient of a recipe inside
`consolidateIngredients`. -/
def consolidateStep (numberOfPeople : ℕ) (shouldConsolidate : Bool) (recipe : Recipe)
    (m : List (String × ShoppingItem)) (ingredient : Ingredient) :
    List (String × ShoppingItem) :=
  let scaleFactor : ℚ := (numberOfPeople : ℚ) / (recipe.servings : ℚ)
  let scaledAmount := scaleIngredientAmountSL ingredient.amount scaleFactor
  let category := categorizeIngredient ingredient.name
  let key := if shouldConsolidate then ingredient.name else ingredient.name ++ "_" ++ recipe.id
  match mapFind m key with
  | some _ =>
      mapUpdate m key fun existingItem =>
        { existingItem with
          quantity := if shouldConsolidate then combineQuantities existingItem.quantity scaledAmount
                      else scaledAmount,
          recipeIds := existingItem.recipeIds ++ [recipe.id],
          recipeNames := existingItem.recipeNames ++ [recipe.name] }
  | none =>
      m ++ [(key,
        { name := ingredient.name, category, quantity := scaledAmount,
          estimatedPrice := estimatePrice ingredient.name category,
          priority := determinePriority ingredient.name category,
          notes := ingredient.notes,
          recipeIds := [recipe.id], recipeNames := [recipe.name],
          isPurchased := false,
          alternatives := getAlternatives ingredient.name })]

/-- `consolidateIngredients`: fold every ingredient of every recipe into
the insertion-ordered map, then return the values in insertion order
(`Array.from(map.values())`). -/
def consolidateIngredients (recipes : List Recipe) (numberOfPeople : ℕ)
    (shouldConsolidate : Bool) : List ShoppingItem :=
  (recipes.foldl
      (fun m recipe =>
        recipe.ingredients.foldl (consolidateStep numberOfPeople shouldConsolidate recipe) m)
      []).map (fun entry => entry.2)

/-- The fixed display order of `groupItemsByCategory`. -/
def categoryOrder : List ShoppingCategory :=
  [.vegetables, .fruits, .meats, .seafood, .eggsDairy, .staples, .condiments,
   .frozen, .canned, .beverages, .snacks, .others]

/-- `indexOf` in the display order (every category is present). -/
def categoryOrderIndex (c : ShoppingCategory) : ℕ :=
  categoryOrder.findIdx fun x => decide (x = c)

/-- `groupItemsByCategory`, parameterised by the `localeCompare`
comparator `lc`: bucket the items per category in first-appearance
order, sort each bucket with `lc` and the sections by display
priority (JS `Array.prototype.sort` is stable, as is `mergeSort`). -/
def groupItemsByCategory (lc : String → String → ℤ) (items : List ShoppingItem) :
    List ShoppingSection :=
  let categoryMap : List (ShoppingCategory × List ShoppingItem) :=
    items.foldl
      (fun m item =>
        if (m.find? fun entry => entry.1 = item.category).isSome then
          m.map fun entry =>
            if entry.1 = item.category then (entry.1, entry.2 ++ [item]) else entry
        else m ++ [(item.category, [item])])
      []
  let sections : List ShoppingSection :=
    categoryMap.map fun entry =>
      { category := entry.1,
        items := entry.2.mergeSort fun a b => decide (lc a.name b.name ≤ 0),
        totalEstimatedCost := entry.2.foldl (fun sum item => sum + item.estimatedPrice.getD 0) 0 }
  sections.mergeSort fun a b =>
    decide (categoryOrderIndex a.category ≤ categoryOrderIndex b.category)

/-- `calculateTotalCost`. -/
def calculateTotalCost (sections : List ShoppingSection) : ℚ :=
  sections.foldl (fun total sec => total + sec.totalEstimatedCost) 0

/-- `generateShoppingListFromRecipes`. -/
def generateShoppingListFromRecipes (lc : String → String → ℤ) (recipes : List Recipe)
    (request : ShoppingListRequest) : ShoppingList :=
  let consolidatedItems :=
    consolidateIngredients recipes request.numberOfPeople request.consolidateItems
  let sections := groupItemsByCategory lc consolidatedItems
  let filteredSections :=
    match request.excludeCategories with
    | some excl => sections.filter fun sec => !(decide (sec.category ∈ excl))
    | none => sections
  let totalItems := filteredSections.foldl (fun sum sec => sum + sec.items.length) 0
  let totalEstimatedCost :=
    if request.includePriceEstimates then some (calculateTotalCost filteredSections) else none
  { sections := filteredSections, totalItems, totalEstimatedCost }

/-- `generateShoppingListFromMealPlan`. -/
def generateShoppingListFromMealPlan (lc : String → String → ℤ) (mealPlan : WeeklyMealPlan)
    (request : ShoppingListRequest) : ShoppingList :=
  let allRecipes := mealPlan.dailyPlans.flatMap fun day => day.meals.map fun meal => meal.recipe
  generateShoppingListFromRecipes lc allRecipes request

/-! ## `dishCombinationUtils.ts` -/

/-- `CombinationPreferences`. -/
structure CombinationPreferences where
  numberOfPeople : ℕ
  occasion : Option String
  budgetLevel : Option String
  dietaryRestrictions : Option (List String)
  preferredFlavors : Option (List String)
  cookingTime : Option String
  skillLevel : Option SkillLevel
  seasonalPreference : Option Bool
  nutritionalBalance : Option Bool
deriving DecidableEq

/-- `CombinationRequest`. -/
structure CombinationRequest where
  preferences : CombinationPreferences
  excludeRecipeIds : Option (List String)
  includeRecipeIds : Option (List String)
  maxDishes : Option ℕ
  minDishes : Option ℕ
deriving DecidableEq

/-- JS `o || d` on an optional number: `undefined` and `0` are falsy. -/
def orDefaultNum (o : Option ℕ) (d : ℕ) : ℕ :=
  match o with
  | none => d
  | some n => if n = 0 then d else n

/-- `RecommendedDish`. -/
structure RecommendedDish where
  recipe : Recipe
  role : DishRole
  priority : DishPriority
  reason : String
  preparationOrder : ℕ
  servingOrder : ℕ
deriving DecidableEq

/-- `NutritionalBalance` record of a combination. -/
structure NutritionalBalance where
  hasProtein : Bool
  hasVegetables : Bool
  hasCarbs : Bool
  isBalanced : Bool
deriving DecidableEq

/-- `DishCombination`; generated id/name/description, the fixed
`cookingTips` and `alternatives` presentation lists and the creation
timestamp are omitted. -/
structure DishCombination where
  type : CombinationType
  dishes : List RecommendedDish
  totalPrepTime : String
  totalCookTime : String
  difficulty : DifficultyLevel
  servings : ℕ
  nutritionalBalance : NutritionalBalance
  flavorProfile : List String
  estimatedCost : String
deriving DecidableEq

/-- `filterRecipesByPreferences` (dishCombinationUtils.ts): dietary
restrictions (素食/无海鲜/无坚果), skill level, cooking-time ceiling. -/
def filterRecipesByPreferencesC (recipes : List Recipe)
    (preferences : CombinationPreferences) : List Recipe :=
  let f1 :=
    match preferences.dietaryRestrictions with
    | some restrictions =>
        if 0 < restrictions.length then
          recipes.filter fun recipe =>
            !(restrictions.any fun restriction =>
              (decide (restriction = "素食") && decide (recipe.category = RecipeCategory.meat))
                || (decide (restriction = "无海鲜")
                      && decide (recipe.category = RecipeCategory.aquatic))
                || (decide (restriction = "无坚果")
                      && recipe.ingredients.any fun ing =>
                           strIncludes ing.name "花生" || strIncludes ing.name "核桃"
                             || strIncludes ing.name "杏仁"))
        else recipes
    | none => recipes
  let f2 :=
    match preferences.skillLevel with
    | some skill => f1.filter fun recipe => decide (recipe.difficulty ∈ skillMap skill)
    | none => f1
  match preferences.cookingTime with
  | some cookingTime =>
      let maxMinutes := parseTimeInMinutes cookingTime
      f2.filter fun recipe =>
        decide (parseTimeInMinutes recipe.prepTime + parseTimeInMinutes recipe.cookTime
          ≤ maxMinutes)
  | none => f2

/-- The mutable state of the selection loops of
`selectDishesForCombination`. -/
structure SelState where
  selected : List Recipe
  used : List RecipeCategory
  available : List Recipe
  k : ℕ
deriving DecidableEq

/-- The fixed diversity order `['荤菜','素菜','汤羹','主食','水产']`. -/
def categoryPriority : List RecipeCategory :=
  [.meat, .vegetarian, .soup, .staple, .aquatic]

/-- One iteration of the category-diversity `for` loop. The source
`break`s once `maxDishes` is reached; since the length never decreases,
skipping every later category is equivalent. -/
def categoryStep (rand : ℕ → ℕ) (maxDishes : ℕ) (st : SelState)
    (category : RecipeCategory) : SelState :=
  if maxDishes ≤ st.selected.length then st
  else if category ∈ st.used then st
  else
    let categoryRecipes := st.available.filter fun r => decide (r.category = category)
    if categoryRecipes.isEmpty then st
    else
      let sel := selectRandomRecipe rand st.k categoryRecipes
      { selected := st.selected ++ [sel],
        used := st.used ++ [category],
        available := st.available.filter fun r => decide (r.id ≠ sel.id),
        k := st.k + 1 }

theorem selectRandomRecipe_mem (rand : ℕ → ℕ) (k : ℕ) {recipes : List Recipe}
    (h : recipes ≠ []) : selectRandomRecipe rand k recipes ∈ recipes := by
  have hlen : 0 < recipes.length := List.length_pos.mpr h
  have hlt : rand k % recipes.length < recipes.length := Nat.mod_lt _ hlen
  rw [selectRandomRecipe, List.getD_eq_getElem _ _ hlt]
  exact List.getElem_mem hlt

theorem length_filter_lt_of_not {l : List Recipe} {p : Recipe → Bool} {x : Recipe}
    (hx : x ∈ l) (hpx : p x = false) : (l.filter p).length < l.length := by
  induction l with
  | nil => cases hx
  | cons a l ih =>
      rcases List.mem_cons.1 hx with rfl | hmem
      · simp only [List.filter_cons, hpx, Bool.false_eq_true, if_false]
        have := List.length_filter_le p l
        simp only [List.length_cons]
        omega
      · by_cases hpa : p a
        · simp only [List.filter_cons, hpa, if_true, List.length_cons]
          exact Nat.succ_lt_succ (ih hmem)
        · simp only [Bool.not_eq_true] at hpa
          simp only [List.filter_cons, hpa, Bool.false_eq_true, if_false, List.length_cons]
          have := ih hmem
          omega

/-- The trailing `while` loop of `selectDishesForCombination`, with the
remaining iterations bounded by the fuel: every draw removes the drawn
recipe from the pool, so the pool length (supplied by `fillWhile`)
bounds the iteration count and the zero-fuel branch is unreachable with
a non-empty pool. -/
def fillWhileAux (rand : ℕ → ℕ) (target : ℤ) :
    ℕ → List Recipe → List Recipe → ℕ → List Recipe × List Recipe × ℕ
  | 0, selected, available, k => (selected, available, k)
  | fuel + 1, selected, available, k =>
      if (selected.length : ℤ) < target ∧ available ≠ [] then
        let sel := selectRandomRecipe rand k available
        fillWhileAux rand target fuel (selected ++ [sel])
          (available.filter fun r => decide (r.id ≠ sel.id)) (k + 1)
      else (selected, available, k)

/-- The `while (selected.length < max(minDishes, remainingSlots) &&
available.length > 0)` loop: draw, append, remove from the pool. -/
def fillWhile (rand : ℕ → ℕ) (target : ℤ) (selected : List Recipe)
    (available : List Recipe) (k : ℕ) : List Recipe × List Recipe × ℕ :=
  fillWhileAux rand target available.length selected available k

/-- The `excludeIds` filtering at the top of
`selectDishesForCombination` (`if (excludeIds && excludeIds.length > 0)`). -/
def excludeApplied (recipes : List Recipe) (excludeIds : Option (List String)) :
    List Recipe :=
  match excludeIds with
  | some l => if 0 < l.length then recipes.filter fun r => !(decide (r.id ∈ l)) else recipes
  | none => recipes

/-- The `requiredRecipes` drawn (from the preference-filtered input,
not the raw catalog) when `includeIds` is non-empty. -/
def requiredRecipes (recipes : List Recipe) (includeIds : Option (List String)) :
    List Recipe :=
  match includeIds with
  | some l => if 0 < l.length then recipes.filter fun r => decide (r.id ∈ l) else []
  | none => []

/-- The pool left for random selection: exclusions applied, required
recipes removed. -/
def availableStart (recipes : List Recipe) (includeIds excludeIds : Option (List String)) :
    List Recipe :=
  match includeIds with
  | some l =>
      if 0 < l.length then
        (excludeApplied recipes excludeIds).filter fun r => !(decide (r.id ∈ l))
      else excludeApplied recipes excludeIds
  | none => excludeApplied recipes excludeIds

/-- `selectDishesForCombination`: exclusions, unconditional inclusion of
the `includeIds` recipes drawn from the (already preference-filtered)
input, the category-diversity loop, then the filling loop. Returns the
selected recipes and the final random counter. -/
def selectDishesForCombination (rand : ℕ → ℕ) (k : ℕ) (recipes : List Recipe)
    (maxDishes minDishes : ℕ) (includeIds excludeIds : Option (List String)) :
    List Recipe × ℕ :=
  let selectedRecipes := requiredRecipes recipes includeIds
  let availableRecipes := availableStart recipes includeIds excludeIds
  let remainingSlots : ℤ :=
    min ((maxDishes : ℤ) - (selectedRecipes.length : ℤ))
      (max 0 ((minDishes : ℤ) - (selectedRecipes.length : ℤ)))
  let st0 : SelState :=
    { selected := selectedRecipes, used := selectedRecipes.map (fun r => r.category),
      available := availableRecipes, k := k }
  let st := categoryPriority.foldl (categoryStep rand maxDishes) st0
  let final := fillWhile rand (max (minDishes : ℤ) remainingSlots) st.selected st.available st.k
  (final.1, final.2.2)

/-- `determineDishRole` (category → role, default 配菜). -/
def determineDishRole (recipe : Recipe) : DishRole :=
  match recipe.category with
  | .meat => .mainDish
  | .aquatic => .mainDish
  | .vegetarian => .sideDish
  | .soup => .soupDish
  | .staple => .stapleFood
  | .dessertCat => .dessertDish
  | _ => .sideDish

/-- `determineDishPriority`. -/
def determineDishPriority (_recipe : Recipe) (role : DishRole)
    (preferences : CombinationPreferences) : DishPriority :=
  if role = .mainDish ∨ role = .stapleFood then .required
  else if role = .soupDish ∧ 2 < preferences.numberOfPeople then .recommended
  else .optionalDish

/-- The display name of a role (used in generated reasons). -/
def roleName : DishRole → String
  | .mainDish => "主菜"
  | .sideDish => "配菜"
  | .soupDish => "汤品"
  | .stapleFood => "主食"
  | .appetizer => "开胃菜"
  | .dessertDish => "甜品"

/-- The display name of a difficulty. -/
def difficultyName : DifficultyLevel → String
  | .easy => "简单"
  | .medium => "中等"
  | .hard => "困难"

/-- `generateRecommendationReason`: uniform pick among three candidate
sentences, consuming one random draw. -/
def generateRecommendationReason (rand : ℕ → ℕ) (k : ℕ) (recipe : Recipe)
    (role : DishRole) : String :=
  let reasons :=
    ["作为" ++ roleName role ++ "，" ++ recipe.name ++ "能够为这餐增添丰富的口感",
     recipe.name ++ "的制作难度为" ++ difficultyName recipe.difficulty ++ "，适合当前的烹饪安排",
     "这道" ++ recipe.name ++ "能够很好地平衡整餐的营养搭配"]
  reasons.getD (rand k % reasons.length) ""

/-- `getServingOrder`. -/
def getServingOrder (role : DishRole) : ℕ :=
  match role with
  | .appetizer => 1
  | .soupDish => 2
  | .mainDish => 3
  | .sideDish => 4
  | .stapleFood => 5
  | .dessertDish => 6

/-- The indexed `forEach` body of `assignDishRoles`, threading the
random counter used by the reason generator. -/
def assignDishRolesGo (rand : ℕ → ℕ) (preferences : CombinationPreferences) :
    List Recipe → ℕ → ℕ → List RecommendedDish × ℕ
  | [], _, k => ([], k)
  | recipe :: rest, index, k =>
      let role := determineDishRole recipe
      let dish : RecommendedDish :=
        { recipe, role,
          priority := determineDishPriority recipe role preferences,
          reason := generateRecommendationReason rand k recipe role,
          preparationOrder := index + 1,
          servingOrder := getServingOrder role }
      let restResult := assignDishRolesGo rand preferences rest (index + 1) (k + 1)
      (dish :: restResult.1, restResult.2)

/-- `assignDishRoles`: build the dishes in order, then sort by
`preparationOrder` (a stable sort on an already sorted key). -/
def assignDishRoles (rand : ℕ → ℕ) (k : ℕ) (recipes : List Recipe)
    (preferences : CombinationPreferences) : List RecommendedDish × ℕ :=
  let result := assignDishRolesGo rand preferences recipes 0 k
  (result.1.mergeSort fun a b => decide (a.preparationOrder ≤ b.preparationOrder), result.2)

/-- `calculateTotalPrepTime`: plain sum. -/
def calculateTotalPrepTime (dishes : List RecommendedDish) : String :=
  formatTimeFromMinutes
    (dishes.foldl (fun sum dish => sum + parseTimeInMinutes dish.recipe.prepTime) 0)

/-- `calculateTotalCookTime`: `max(longest single dish, 0.6 × total)`.
`Math.max(...[])` is `-Infinity` in JS; the outer `max` against the
non-negative `0.6 × total` makes the fold base 0 equivalent. -/
def calculateTotalCookTime (dishes : List RecommendedDish) : String :=
  let cookTimes := dishes.map fun dish => parseTimeInMinutes dish.recipe.cookTime
  let maxCookTime : ℕ := cookTimes.foldl max 0
  let totalCookTime : ℕ := cookTimes.foldl (fun a b => a + b) 0
  let estimatedTime : ℚ := max (maxCookTime : ℚ) ((totalCookTime : ℚ) * (6 / 10 : ℚ))
  formatTimeFromMinutes (jsRound estimatedTime).toNat

/-- Difficulty ordinals 简单=1 中等=2 困难=3. -/
def difficultyScore : DifficultyLevel → ℕ
  | .easy => 1
  | .medium => 2
  | .hard => 3

/-- `calculateOverallDifficulty`: bucketed average ordinal. On an empty
list the JS average is `NaN`, both `≤` comparisons fail and 困难 is
returned; the empty case is split off to preserve that. -/
def calculateOverallDifficulty (dishes : List RecommendedDish) : DifficultyLevel :=
  if dishes.isEmpty then .hard
  else
    let totalScore : ℕ :=
      dishes.foldl (fun sum dish => sum + difficultyScore dish.recipe.difficulty) 0
    let avgScore : ℚ := (totalScore : ℚ) / (dishes.length : ℚ)
    if avgScore ≤ 13 / 10 then .easy
    else if avgScore ≤ 23 / 10 then .medium
    else .hard

/-- `analyzeNutritionalBalance`. The protein list `['荤菜','水产','蛋奶']`
is compared against recipe-category strings, so 蛋奶 (a shopping
category) can never match — kept verbatim. -/
def analyzeNutritionalBalance (dishes : List RecommendedDish) : NutritionalBalance :=
  let categories := dishes.map fun dish => catName dish.recipe.category
  let hasProtein := categories.any fun cat => decide (cat ∈ ["荤菜", "水产", "蛋奶"])
  let hasVegetables := decide ("素菜" ∈ categories)
  let hasCarbs := decide ("主食" ∈ categories)
  { hasProtein, hasVegetables, hasCarbs,
    isBalanced := hasProtein && hasVegetables && hasCarbs }

/-- JS `Set.prototype.add`: keep first insertion order, ignore
duplicates. -/
def addFlavor (flavors : List String) (f : String) : List String :=
  if f ∈ flavors then flavors else flavors ++ [f]

/-- The recognised flavor tags. -/
def flavorTags : List String :=
  ["酸", "甜", "苦", "辣", "咸", "鲜", "香", "清淡", "浓郁"]

/-- `analyzeFlavorProfile`: collect recognised tags, then flavors
inferred from cooking methods (炒→香, 蒸→清淡, 炖→浓郁), as an
insertion-ordered set. -/
def analyzeFlavorProfile (dishes : List RecommendedDish) : List String :=
  dishes.foldl
    (fun flavors dish =>
      let flavors := dish.recipe.tags.foldl
        (fun fs tag => if decide (tag ∈ flavorTags) then addFlavor fs tag else fs) flavors
      dish.recipe.cookingMethods.foldl
        (fun fs method =>
          let fs := if method = "炒" then addFlavor fs "香" else fs
          let fs := if method = "蒸" then addFlavor fs "清淡" else fs
          if method = "炖" then addFlavor fs "浓郁" else fs)
        flavors)
    []

/-- `determineCombinationType`. -/
def determineCombinationType (preferences : CombinationPreferences) : CombinationType :=
  if preferences.occasion = some "招待客人" then .banquet
  else if preferences.occasion = some "节日" then .holiday
  else if (match preferences.cookingTime with
           | some t => decide (parseTimeInMinutes t < 60)
           | none => false) then .quick
  else if preferences.nutritionalBalance = some true then .nutritional
  else .homeStyle

/-- `estimateCombinationCost`. -/
def estimateCombinationCost (dishes : List RecommendedDish)
    (budgetLevel : Option String) : String :=
  let dishCount := dishes.length
  let range : ℕ × ℕ :=
    match budgetLevel with
    | some "经济" => (20, 40)
    | some "中等" => (40, 80)
    | some "高档" => (80, 150)
    | _ => (40, 80)
  let estimatedCost : ℤ := (range.1 : ℤ) + ((dishCount : ℤ) - 3) * 10
  intRepr (max (range.1 : ℤ) estimatedCost) ++ "-"
    ++ intRepr (min (range.2 : ℤ) (estimatedCost + 20)) ++ "元"

/-- `generateDishCombination`. -/
def generateDishCombination (rand : ℕ → ℕ) (k : ℕ) (recipes : List Recipe)
    (request : CombinationRequest) : DishCombination :=
  let preferences := request.preferences
  let suitableRecipes := filterRecipesByPreferencesC recipes preferences
  let sel := selectDishesForCombination rand k suitableRecipes
    (orDefaultNum request.maxDishes 6) (orDefaultNum request.minDishes 3)
    request.includeRecipeIds request.excludeRecipeIds
  let assigned := assignDishRoles rand sel.2 sel.1 preferences
  let recommendedDishes := assigned.1
  { type := determineCombinationType preferences,
    dishes := recommendedDishes,
    totalPrepTime := calculateTotalPrepTime recommendedDishes,
    totalCookTime := calculateTotalCookTime recommendedDishes,
    difficulty := calculateOverallDifficulty recommendedDishes,
    servings := preferences.numberOfPeople,
    nutritionalBalance := analyzeNutritionalBalance recommendedDishes,
    flavorProfile := analyzeFlavorProfile recommendedDishes,
    estimatedCost := estimateCombinationCost recommendedDishes preferences.budgetLevel }

/-! ## `recommendDishCombination.ts` -/

/-- `CombinationAnalysis`. Scores are JS numbers (`timeEfficiency` can
be fractional), the overall score is `Math.round`ed. -/
structure CombinationAnalysis where
  nutritionalScore : ℚ
  flavorHarmony : ℚ
  difficultyBalance : ℚ
  timeEfficiency : ℚ
  overallScore : ℤ
  strengths : List String
  improvements : List String
deriving DecidableEq

/-- `analyzeCombination`: the four component scores and their rounded
unweighted average. On an empty dish list the JS average cook time is
`NaN`; the ℚ embedding yields `0/0 = 0` there instead — every claim
about the analysis is restricted to non-empty combinations. -/
def analyzeCombination (combination : DishCombination) : CombinationAnalysis :=
  let dishes := combination.dishes
  let ns0 : ℚ := 0
  let ns1 := if combination.nutritionalBalance.hasProtein then ns0 + 3 else ns0
  let ns2 := if combination.nutritionalBalance.hasVegetables then ns1 + 3 else ns1
  let ns3 := if combination.nutritionalBalance.hasCarbs then ns2 + 2 else ns2
  let nutritionalScore := if combination.nutritionalBalance.isBalanced then ns3 + 2 else ns3
  let flavorHarmony : ℚ := min 10 ((combination.flavorProfile.length : ℚ) * 2)
  let difficulties := dishes.map fun d => d.recipe.difficulty
  let difficultyVariety := difficulties.dedup.length
  let difficultyBalance : ℚ := max 1 (11 - (difficultyVariety : ℚ) * 2)
  let totalCook : ℕ := dishes.foldl (fun sum dish => sum + parseTimeInMinutes dish.recipe.cookTime) 0
  let avgCookTime : ℚ := (totalCook : ℚ) / (dishes.length : ℚ)
  let timeEfficiency : ℚ := max 1 (min 10 (10 - avgCookTime / 10))
  let overallScore : ℤ :=
    jsRound ((nutritionalScore + flavorHarmony + difficultyBalance + timeEfficiency) / 4)
  let strengths :=
    (if combination.nutritionalBalance.isBalanced then ["营养搭配均衡，包含蛋白质、蔬菜和主食"] else [])
      ++ (if 3 ≤ combination.flavorProfile.length then ["口味丰富多样，层次分明"] else [])
      ++ (if difficultyVariety ≤ 2 then ["制作难度适中，便于掌控"] else [])
  let improvements :=
    (if combination.nutritionalBalance.isBalanced then [] else ["建议增加缺失的营养成分以达到更好的平衡"])
      ++ (if 3 ≤ combination.flavorProfile.length then [] else ["可以考虑增加不同口味的菜品以丰富整体体验"])
  { nutritionalScore, flavorHarmony, difficultyBalance, timeEfficiency, overallScore,
    strengths, improvements }

/-- The outcome of the `recommend_dish_combination` tool handler
(`MCPResponse`): a success value or an error/details pair. -/
inductive CombinationToolResult where
  | ok (combination : DishCombination) (analysis : Option CombinationAnalysis)
  | err (error : String) (details : String)
deriving DecidableEq

/-- `handleRecommendDishCombination`, after zod validation: the
`minDishes > maxDishes` guard, the empty-catalog guard, then combination
generation and optional analysis. -/
def handleRecommendDishCombination (rand : ℕ → ℕ) (recipes : List Recipe)
    (preferences : CombinationPreferences)
    (excludeRecipeIds includeRecipeIds : Option (List String))
    (maxDishes minDishes : ℕ) (includeAnalysis : Bool) : CombinationToolResult :=
  if minDishes > maxDishes then
    .err "Invalid dish count constraints" "Minimum dishes cannot be greater than maximum dishes"
  else if recipes.length = 0 then
    .err "No recipes available" "Recipe database is empty"
  else
    let combinationRequest : CombinationRequest :=
      { preferences, excludeRecipeIds, includeRecipeIds,
        maxDishes := some maxDishes, minDishes := some minDishes }
    let combination := generateDishCombination rand 0 recipes combinationRequest
    .ok combination (if includeAnalysis then some (analyzeCombination combination) else none)

/-! ## `recommendMealPlan.ts` -/

/-- The outcome of the `recommend_meal_plan` tool handler. -/
inductive MealPlanToolResult where
  | ok (mealPlan : WeeklyMealPlan) (shoppingList : Option ShoppingList)
  | err (error : String) (details : String)
deriving DecidableEq

/-- The plan carried by a successful result. -/
def MealPlanToolResult.plan? : MealPlanToolResult → Option WeeklyMealPlan
  | .ok mealPlan _ => some mealPlan
  | .err _ _ => none

/-- `handleRecommendMealPlan`, after zod validation: preference
validation, the empty-catalog guard, plan generation and the optional
shopping list. `planDuration` is accepted but never used by the
generation (it only appears in the success message). -/
def handleRecommendMealPlan (rand : ℕ → ℕ) (lc : String → String → ℤ)
    (recipes : List Recipe) (preferences : MealPlanPreferences)
    (dates : ℕ → String) (startDate endDate : String) (_planDuration : ℕ)
    (includeShoppingList consolidateItems : Bool) : MealPlanToolResult :=
  let validation := validateMealPlanPreferences preferences
  if !validation.1 then
    .err "Invalid meal plan preferences" (String.intercalate ", " validation.2)
  else if recipes.length = 0 then
    .err "No recipes available" "Recipe database is empty"
  else
    let mealPlan := generateWeeklyMealPlan rand recipes preferences dates startDate endDate
    let shoppingList :=
      if includeShoppingList then
        some (generateShoppingListFromMealPlan lc mealPlan
          { numberOfPeople := preferences.numberOfPeople,
            consolidateItems := consolidateItems,
            includePriceEstimates := preferences.budgetLevel.isSome,
            excludeCategories := none })
      else none
    .ok mealPlan shoppingList

/-! ## Digit and formatting lemmas -/

theorem digitChar_isDigit {d : ℕ} (h : d < 10) : (digitChar d).isDigit = true := by
  interval_cases d <;> decide

theorem toNat_digitChar {d : ℕ} (h : d < 10) : (digitChar d).toNat = 48 + d := by
  interval_cases d <;> decide

theorem natDigitsAux_isDigit : ∀ fuel n, n ≤ fuel →
    ∀ c ∈ natDigitsAux fuel n, c.isDigit = true := by
  intro fuel
  induction fuel with
  | zero =>
      intro n hn c hc
      have hn0 : n = 0 := by omega
      subst hn0
      rw [natDigitsAux, List.mem_singleton] at hc
      subst hc
      exact digitChar_isDigit (by omega)
  | succ fuel ih =>
      intro n hn c hc
      rw [natDigitsAux] at hc
      by_cases h : n < 10
      · rw [if_pos h, List.mem_singleton] at hc
        subst hc
        exact digitChar_isDigit h
      · rw [if_neg h] at hc
        rcases List.mem_append.1 hc with h1 | h2
        · have hdiv : n / 10 ≤ fuel := by
            have hlt : n / 10 < n := Nat.div_lt_self (by omega) (by omega)
            omega
          exact ih (n / 10) hdiv c h1
        · rw [List.mem_singleton] at h2
          subst h2
          exact digitChar_isDigit (Nat.mod_lt _ (by omega))

theorem natDigits_isDigit (n : ℕ) : ∀ c ∈ natDigits n, c.isDigit = true :=
  natDigitsAux_isDigit n n le_rfl

theorem natDigitsAux_ne_nil (fuel n : ℕ) : natDigitsAux fuel n ≠ [] := by
  cases fuel with
  | zero => simp [natDigitsAux]
  | succ fuel =>
      rw [natDigitsAux]
      split
      · simp
      · simp

theorem natDigits_ne_nil (n : ℕ) : natDigits n ≠ [] :=
  natDigitsAux_ne_nil n n

theorem digitsVal_cons (c : Char) (l : List Char) :
    digitsVal (c :: l) = l.foldl (fun a x => 10 * a + (x.toNat - 48)) (c.toNat - 48) := by
  simp [digitsVal]

theorem digitsVal_go (l : List Char) (a : ℕ) :
    l.foldl (fun a x => 10 * a + (x.toNat - 48)) a = a * 10 ^ l.length + digitsVal l := by
  induction l generalizing a with
  | nil => simp [digitsVal]
  | cons c t ih =>
      rw [List.foldl_cons, ih, digitsVal_cons, ih (c.toNat - 48)]
      simp only [List.length_cons]
      ring

theorem digitsVal_append (l1 l2 : List Char) :
    digitsVal (l1 ++ l2) = digitsVal l1 * 10 ^ l2.length + digitsVal l2 := by
  rw [digitsVal, List.foldl_append, ← digitsVal, digitsVal_go]

theorem digitsVal_natDigitsAux : ∀ fuel n, n ≤ fuel →
    digitsVal (natDigitsAux fuel n) = n := by
  intro fuel
  induction fuel with
  | zero =>
      intro n hn
      have hn0 : n = 0 := by omega
      subst hn0
      rw [natDigitsAux, digitsVal_cons]
      simp [toNat_digitChar (show (0 : ℕ) < 10 by omega)]
  | succ fuel ih =>
      intro n hn
      rw [natDigitsAux]
      by_cases h : n < 10
      · rw [if_pos h, digitsVal_cons]
        simp [toNat_digitChar h]
      · rw [if_neg h, digitsVal_append]
        have hdiv : n / 10 ≤ fuel := by
          have hlt : n / 10 < n := Nat.div_lt_self (by omega) (by omega)
          omega
        rw [ih (n / 10) hdiv, digitsVal_cons]
        simp only [List.foldl_nil, List.length_singleton, pow_one]
        rw [toNat_digitChar (Nat.mod_lt _ (by omega))]
        omega

theorem digitsVal_natDigits (n : ℕ) : digitsVal (natDigits n) = n :=
  digitsVal_natDigitsAux n n le_rfl

theorem natDigitsAux_small {fuel n : ℕ} (h : n < 10) :
    natDigitsAux fuel n = [digitChar n] := by
  cases fuel with
  | zero => rfl
  | succ fuel => rw [natDigitsAux, if_pos h]

theorem natDigits_small {n : ℕ} (h : n < 10) : natDigits n = [digitChar n] :=
  natDigitsAux_small h

theorem natDigits_length_two {n : ℕ} (h1 : 10 ≤ n) (h2 : n < 100) :
    (natDigits n).length = 2 := by
  rw [natDigits]
  cases hn : n with
  | zero => omega
  | succ m =>
      rw [natDigitsAux]
      have h10 : ¬m + 1 < 10 := by omega
      rw [if_neg h10]
      rw [natDigitsAux_small (show (m + 1) / 10 < 10 by omega)]
      simp

/-- The first character of `l` (if any) fails predicate `p`. -/
def firstCharFails (p : Char → Bool) : List Char → Prop
  | [] => True
  | c :: _ => p c = false

instance (p : Char → Bool) (l : List Char) : Decidable (firstCharFails p l) := by
  cases l with
  | nil => exact isTrue trivial
  | cons c t => exact inferInstanceAs (Decidable (p c = false))

theorem takeWhile_append_of (p : Char → Bool) (l1 l2 : List Char)
    (h1 : ∀ c ∈ l1, p c = true) (h2 : firstCharFails p l2) :
    (l1 ++ l2).takeWhile p = l1 ∧ (l1 ++ l2).dropWhile p = l2 := by
  induction l1 with
  | nil =>
      cases l2 with
      | nil => simp
      | cons c t =>
          have hc : p c = false := h2
          simp [List.takeWhile_cons, List.dropWhile_cons, hc]
  | cons a t ih =>
      have ha : p a = true := h1 a (List.mem_cons_self a t)
      have iht := ih fun c hc => h1 c (List.mem_cons_of_mem a hc)
      simp only [List.cons_append, List.takeWhile_cons, List.dropWhile_cons, ha, if_true]
      exact ⟨by rw [iht.1], by rw [iht.2]⟩

theorem dropWhile_of_firstCharFails {p : Char → Bool} {l : List Char}
    (h : firstCharFails p l) : l.dropWhile p = l := by
  cases l with
  | nil => rfl
  | cons c t =>
      have hc : p c = false := h
      simp [List.dropWhile_cons, hc]

theorem isWhitespace_not_digit {c : Char} (h : c.isWhitespace = true) :
    c.isDigit = false ∧ c ≠ '.' := by
  rw [Char.isWhitespace] at h
  simp only [Bool.or_eq_true, decide_eq_true_eq] at h
  rcases h with ((h1 | h1) | h1) | h1 <;> subst h1 <;> exact ⟨by decide, by decide⟩

theorem fracSplit_not_dot {afterInt : List Char}
    (h : firstCharFails (fun c => decide (c = '.')) afterInt) :
    fracSplit afterInt = ([], afterInt) := by
  cases afterInt with
  | nil => rfl
  | cons c t =>
      have hc : c ≠ '.' := by
        have hh : (decide (c = '.')) = false := h
        exact of_decide_eq_false hh
      simp [fracSplit, hc]

theorem fracSplit_dot (t : List Char) :
    fracSplit ('.' :: t) =
      if (t.takeWhile Char.isDigit).isEmpty then ([], '.' :: t)
      else (t.takeWhile Char.isDigit, t.dropWhile Char.isDigit) := by
  simp [fracSplit]

theorem isEmpty_natDigits (n : ℕ) : (natDigits n).isEmpty = false := by
  cases hnd : natDigits n with
  | nil => exact absurd hnd (natDigits_ne_nil n)
  | cons a t => rfl

theorem parseL_noFrac (ip : ℕ) (u : List Char)
    (hd : firstCharFails Char.isDigit u)
    (hdot : firstCharFails (fun c => decide (c = '.')) u) :
    parseNumericAmountL (natDigits ip ++ u) =
      some ((ip : ℚ), u.dropWhile Char.isWhitespace) := by
  obtain ⟨htake, hdrop⟩ :=
    takeWhile_append_of Char.isDigit (natDigits ip) u (natDigits_isDigit ip) hd
  simp only [parseNumericAmountL, htake, hdrop, isEmpty_natDigits, Bool.false_eq_true,
    if_false, fracSplit_not_dot hdot, digitsVal_natDigits]
  simp [digitsVal]

theorem parseL_frac (ip : ℕ) (fd : List Char) (u : List Char)
    (hfd : ∀ c ∈ fd, c.isDigit = true) (hfdne : fd ≠ [])
    (hd : firstCharFails Char.isDigit u) :
    parseNumericAmountL (natDigits ip ++ '.' :: (fd ++ u)) =
      some ((ip : ℚ) + (digitsVal fd : ℚ) / (10 : ℚ) ^ fd.length,
        u.dropWhile Char.isWhitespace) := by
  have hdotfail : firstCharFails Char.isDigit ('.' :: (fd ++ u)) := by
    show Char.isDigit '.' = false
    decide
  obtain ⟨htake, hdrop⟩ :=
    takeWhile_append_of Char.isDigit (natDigits ip) ('.' :: (fd ++ u))
      (natDigits_isDigit ip) hdotfail
  obtain ⟨htake2, hdrop2⟩ := takeWhile_append_of Char.isDigit fd u hfd hd
  have hfdempty : fd.isEmpty = false := by
    cases fd with
    | nil => exact absurd rfl hfdne
    | cons a t => rfl
  simp only [parseNumericAmountL, htake, hdrop, isEmpty_natDigits, Bool.false_eq_true,
    if_false, fracSplit_dot, htake2, hdrop2, hfdempty, digitsVal_natDigits]

theorem digitsVal_zero_cons (l : List Char) : digitsVal ('0' :: l) = digitsVal l := by
  rfl

/-- The format/parse roundtrip: rendering `k / 100` and appending a
remainder whose first character is neither a digit nor a dot parses
back to the value `k / 100` with the whitespace-stripped remainder as
the unit. -/
theorem formatCentsNat_parse (k : ℕ) (u : List Char)
    (hd : firstCharFails Char.isDigit u)
    (hdot : firstCharFails (fun c => decide (c = '.')) u) :
    parseNumericAmountL (formatCentsNat k ++ u) =
      some ((k : ℚ) / 100, u.dropWhile Char.isWhitespace) := by
  by_cases h0 : k % 100 = 0
  · have hfmt : formatCentsNat k = natDigits (k / 100) := by
      simp [formatCentsNat, h0]
    rw [hfmt, parseL_noFrac _ _ hd hdot]
    have hk : k = 100 * (k / 100) := by omega
    have hq : (k : ℚ) / 100 = ((k / 100 : ℕ) : ℚ) := by
      have h : (k : ℚ) = 100 * ((k / 100 : ℕ) : ℚ) := by exact_mod_cast hk
      rw [h]
      ring
    rw [hq]
  · by_cases h1 : (k % 100) % 10 = 0
    · have hfmt : formatCentsNat k = natDigits (k / 100) ++ '.' :: natDigits (k % 100 / 10) := by
        simp [formatCentsNat, h0, h1]
      have hlen : (natDigits (k % 100 / 10)).length = 1 := by
        rw [natDigits_small (by omega)]
        rfl
      rw [hfmt, List.append_assoc, List.cons_append,
        parseL_frac _ _ _ (natDigits_isDigit _) (natDigits_ne_nil _) hd,
        digitsVal_natDigits, hlen]
      have hk : k = 100 * (k / 100) + 10 * (k % 100 / 10) := by omega
      have hq : (k : ℚ) / 100
          = ((k / 100 : ℕ) : ℚ) + ((k % 100 / 10 : ℕ) : ℚ) / (10 : ℚ) ^ 1 := by
        have h : (k : ℚ) = 100 * ((k / 100 : ℕ) : ℚ) + 10 * ((k % 100 / 10 : ℕ) : ℚ) := by
          exact_mod_cast hk
        rw [h, pow_one]
        ring
      rw [hq]
    · by_cases h2 : k % 100 < 10
      · have hfmt : formatCentsNat k = natDigits (k / 100) ++ '.' :: '0' :: natDigits (k % 100) := by
          simp [formatCentsNat, h0, h1, h2]
        have hdig : ∀ c ∈ '0' :: natDigits (k % 100), c.isDigit = true := by
          intro c hc
          rcases List.mem_cons.1 hc with rfl | hm
          · decide
          · exact natDigits_isDigit _ c hm
        have hlen : ('0' :: natDigits (k % 100)).length = 2 := by
          rw [List.length_cons, natDigits_small (by omega)]
          rfl
        have hshape : natDigits (k / 100) ++ '.' :: '0' :: natDigits (k % 100) ++ u
            = natDigits (k / 100) ++ '.' :: (('0' :: natDigits (k % 100)) ++ u) := by
          simp
        rw [hfmt, hshape,
          parseL_frac _ _ _ hdig (by simp) hd,
          digitsVal_zero_cons, digitsVal_natDigits, hlen]
        have hk : k = 100 * (k / 100) + (k % 100) := by omega
        have hq : (k : ℚ) / 100
            = ((k / 100 : ℕ) : ℚ) + ((k % 100 : ℕ) : ℚ) / (10 : ℚ) ^ 2 := by
          have h : (k : ℚ) = 100 * ((k / 100 : ℕ) : ℚ) + ((k % 100 : ℕ) : ℚ) := by
            exact_mod_cast hk
          rw [h]
          norm_num
          ring
        rw [hq]
      · have hfmt : formatCentsNat k = natDigits (k / 100) ++ '.' :: natDigits (k % 100) := by
          simp [formatCentsNat, h0, h1, h2]
        have hlen : (natDigits (k % 100)).length = 2 :=
          natDigits_length_two (by omega) (by omega)
        rw [hfmt, List.append_assoc, List.cons_append,
          parseL_frac _ _ _ (natDigits_isDigit _) (natDigits_ne_nil _) hd,
          digitsVal_natDigits, hlen]
        have hk : k = 100 * (k / 100) + (k % 100) := by omega
        have hq : (k : ℚ) / 100
            = ((k / 100 : ℕ) : ℚ) + ((k % 100 : ℕ) : ℚ) / (10 : ℚ) ^ 2 := by
          have h : (k : ℚ) = 100 * ((k / 100 : ℕ) : ℚ) + ((k % 100 : ℕ) : ℚ) := by
            exact_mod_cast hk
          rw [h]
          norm_num
          ring
        rw [hq]

theorem string_data_append (s t : String) : (s ++ t).data = s.data ++ t.data :=
  rfl

theorem jsRound_intCast (z : ℤ) : jsRound (z : ℚ) = z := by
  rw [jsRound, Int.floor_int_add]
  norm_num

theorem jsRound_natCast (n : ℕ) : jsRound (n : ℚ) = n := by
  have : ((n : ℤ) : ℚ) = (n : ℚ) := by push_cast; rfl
  rw [← this, jsRound_intCast]

theorem jsRound_nonneg {x : ℚ} (h : 0 ≤ x) : 0 ≤ jsRound x := by
  rw [jsRound]
  have : (0 : ℚ) ≤ x + 1 / 2 := by linarith
  exact_mod_cast Int.floor_nonneg.mpr this

theorem formatCents_of_nonneg {k : ℤ} (h : 0 ≤ k) :
    formatCents k = formatCentsNat k.toNat := by
  rw [formatCents, if_neg (by omega)]

theorem parseL_nonneg {cs : List Char} {v : ℚ} {u : List Char}
    (h : parseNumericAmountL cs = some (v, u)) : 0 ≤ v := by
  rw [parseNumericAmountL] at h
  by_cases he : (cs.takeWhile Char.isDigit).isEmpty
  · rw [if_pos he] at h
    cases h
  · rw [if_neg he] at h
    injection h with h1
    injection h1 with hv hu
    rw [← hv]
    positivity

theorem parse_nonneg {s : String} {v : ℚ} {u : String}
    (h : parseNumericAmount s = some (v, u)) : 0 ≤ v := by
  rw [parseNumericAmount] at h
  cases hL : parseNumericAmountL s.data with
  | none => rw [hL] at h; cases h
  | some p =>
      rw [hL] at h
      injection h with h1
      injection h1 with hv hu
      cases p with
      | mk pv pu =>
          simp only at hv
          rw [← hv]
          exact parseL_nonneg hL

/-- String-level roundtrip: the rendering of `k/100` followed by a
remainder that does not begin with a digit or a dot parses back
exactly. -/
theorem parse_format_append (k : ℕ) (u : List Char)
    (hd : firstCharFails Char.isDigit u)
    (hdot : firstCharFails (fun c => decide (c = '.')) u) :
    parseNumericAmount (String.mk (formatCentsNat k ++ u)) =
      some ((k : ℚ) / 100, String.mk (u.dropWhile Char.isWhitespace)) := by
  rw [parseNumericAmount]
  have hdata : (String.mk (formatCentsNat k ++ u)).data = formatCentsNat k ++ u := rfl
  rw [hdata, formatCentsNat_parse k u hd hdot]

/-! ## Claim C1: per-recipe scaling -/

/-- Modelled from the spec's words (§4.3/§8): the scaled quantity of an
amount matching `<number><optional unit text>` is
`round(number * target/servings, 2)` with the unit text preserved;
every other amount — including the fixed qualifier set — is returned
unchanged. Used as the reference against which
`scaleRecipeIngredients` is compared. -/
def scaledAmountSpec (originalServings targetServings : ℕ) (amount : String) : String :=
  match parseNumericAmount amount with
  | some (num, unit) =>
      String.mk (formatCents (jsRound
        (num * ((targetServings : ℚ) / (originalServings : ℚ)) * 100))) ++ unit
  | none => amount

/-- C1. For every recipe `R` with positive servings and every positive
target `t`: `scaleRecipeIngredients R t` has servings `t`; every
ingredient amount is rewritten exactly as the specification formula
`round(number * t / R.servings, 2)` with the captured unit preserved;
the fixed qualifier amounts (适量 少许 一点 若干) and all amounts
matching neither pattern pass through unchanged. -/
theorem scaleRecipeIngredients_spec (R : Recipe) (t : ℕ)
    (hs : 0 < R.servings) (ht : 0 < t) :
    (scaleRecipeIngredients R t).servings = t ∧
    (scaleRecipeIngredients R t).ingredients
      = R.ingredients.map (fun i => { i with amount := scaledAmountSpec R.servings t i.amount }) ∧
    (∀ i ∈ R.ingredients, i.amount ∈ specialCases →
      scaledAmountSpec R.servings t i.amount = i.amount) ∧
    (∀ i ∈ R.ingredients, parseNumericAmount i.amount = none →
      scaledAmountSpec R.servings t i.amount = i.amount) := by
  refine ⟨rfl, ?_, ?_, ?_⟩
  · apply List.map_congr_left
    intro i _
    cases hp : parseNumericAmount i.amount with
    | none =>
        simp [scaleIngredientAmount, scaledAmountSpec, hp]
    | some p =>
        cases p with
        | mk v u => simp [scaleIngredientAmount, scaledAmountSpec, hp]
  · intro i _ hmem
    have hnone : parseNumericAmount i.amount = none := by
      simp only [specialCases, List.mem_cons, List.mem_singleton] at hmem
      rcases hmem with h | h | h | h | h <;> first
        | (rw [h]; decide)
        | cases h
    simp [scaledAmountSpec, hnone]
  · intro i _ hnone
    simp [scaledAmountSpec, hnone]

/-- A concrete recipe used to instantiate C1. -/
def sampleRiceRecipe : Recipe :=
  { id := "recipe_rice", name := "米饭", category := .staple, difficulty := .easy,
    servings := 2, prepTime := "5分钟", cookTime := "30分钟",
    ingredients := [{ name := "大米", amount := "200克", notes := none },
                    { name := "盐", amount := "适量", notes := none }],
    steps := [{ stepNumber := 1, instruction := "煮饭" }],
    tags := [], cookingMethods := ["煮"], nutritionalInfo := none }

theorem scaleRecipeIngredients_spec_witness :
    0 < sampleRiceRecipe.servings ∧ 0 < 4 ∧
    ((scaleRecipeIngredients sampleRiceRecipe 4).servings = 4 ∧
     (scaleRecipeIngredients sampleRiceRecipe 4).ingredients
       = sampleRiceRecipe.ingredients.map
           (fun i => { i with amount := scaledAmountSpec sampleRiceRecipe.servings 4 i.amount }) ∧
     (∀ i ∈ sampleRiceRecipe.ingredients, i.amount ∈ specialCases →
       scaledAmountSpec sampleRiceRecipe.servings 4 i.amount = i.amount) ∧
     (∀ i ∈ sampleRiceRecipe.ingredients, parseNumericAmount i.amount = none →
       scaledAmountSpec sampleRiceRecipe.servings 4 i.amount = i.amount)) :=
  ⟨by decide, by decide,
    scaleRecipeIngredients_spec sampleRiceRecipe 4 (by decide) (by decide)⟩

/-! ## Claim C2: combining quantities -/

/-- C2. For all quantity strings: if both parse to the numeric+unit
shape with identical units the combination is the rounded sum with the
shared unit; in every other case it is the literal
`"<q1> + <q2>"` — and the function is total, so combining never
fails. -/
theorem combineQuantities_spec (q1 q2 : String) :
    (∀ v1 v2 u, parseNumericAmount q1 = some (v1, u) → parseNumericAmount q2 = some (v2, u) →
      combineQuantities q1 q2 = String.mk (formatCents (jsRound ((v1 + v2) * 100))) ++ u) ∧
    (∀ v1 u1 v2 u2, parseNumericAmount q1 = some (v1, u1) →
      parseNumericAmount q2 = some (v2, u2) → u1 ≠ u2 →
      combineQuantities q1 q2 = q1 ++ " + " ++ q2) ∧
    (parseNumericAmount q1 = none ∨ parseNumericAmount q2 = none →
      combineQuantities q1 q2 = q1 ++ " + " ++ q2) := by
  refine ⟨?_, ?_, ?_⟩
  · intro v1 v2 u h1 h2
    simp [combineQuantities, h1, h2]
  · intro v1 u1 v2 u2 h1 h2 hne
    simp [combineQuantities, h1, h2, hne]
  · intro h
    rcases h with h | h
    · cases h2 : parseNumericAmount q2 with
      | none => simp [combineQuantities, h, h2]
      | some p => cases p with
        | mk v u => simp [combineQuantities, h, h2]
    · cases h1 : parseNumericAmount q1 with
      | none => simp [combineQuantities, h, h1]
      | some p => cases p with
        | mk v u => simp [combineQuantities, h, h1]

/-- Evaluate the parser on a concrete rendered amount without kernel
ℚ-arithmetic. -/
theorem parse_concrete (k : ℕ) (u : List Char) (s : String)
    (hs : s = String.mk (formatCentsNat k ++ u))
    (hd : firstCharFails Char.isDigit u)
    (hdot : firstCharFails (fun c => decide (c = '.')) u)
    (hws : firstCharFails Char.isWhitespace u) (v : ℚ) (hv : (k : ℚ) / 100 = v) :
    parseNumericAmount s = some (v, String.mk u) := by
  rw [hs, parse_format_append k u hd hdot, dropWhile_of_firstCharFails hws, hv]

/-- Evaluate a rendered amount on a concrete non-negative integer
value. -/
theorem format_concrete (x : ℚ) (k : ℕ) (hx : x = (k : ℚ)) (u s : String)
    (hs : String.mk (formatCentsNat k) ++ u = s) :
    String.mk (formatCents (jsRound x)) ++ u = s := by
  rw [hx, jsRound_natCast k, formatCents_of_nonneg (Int.natCast_nonneg k),
    Int.toNat_natCast, hs]

theorem combineQuantities_spec_witness :
    combineQuantities "200克" "100克" = "300克" ∧
    combineQuantities "200克" "2杯" = "200克 + 2杯" ∧
    combineQuantities "适量" "100克" = "适量 + 100克" := by
  have p200 : parseNumericAmount "200克" = some (200, "克") :=
    parse_concrete 20000 ['克'] _ (by decide) (by decide) (by decide) (by decide)
      200 (by norm_num)
  have p100 : parseNumericAmount "100克" = some (100, "克") :=
    parse_concrete 10000 ['克'] _ (by decide) (by decide) (by decide) (by decide)
      100 (by norm_num)
  have p2 : parseNumericAmount "2杯" = some (2, "杯") :=
    parse_concrete 200 ['杯'] _ (by decide) (by decide) (by decide) (by decide)
      2 (by norm_num)
  refine ⟨?_, ?_, ?_⟩
  · have h := (combineQuantities_spec "200克" "100克").1 200 100 "克" p200 p100
    rw [h]
    exact format_concrete _ 30000 (by norm_num) "克" _ (by decide)
  · have h := (combineQuantities_spec "200克" "2杯").2.1 200 "克" 2 "杯" p200 p2
      (by decide)
    rw [h]
    decide
  · have h := (combineQuantities_spec "适量" "100克").2.2 (Or.inl (by decide))
    rw [h]
    decide

/-! ## Claim C10: scaling at the baseline serving count -/

/-- C10 counterexample: the amount `"0.125 ml"` has the claimed
`<number><whitespace><unit>` form, but scaling by factor 1 yields
`"0.13ml"`, not the claimed plain concatenation `"0.125ml"`: the
numeric part is also re-rounded to two decimals and re-rendered. -/
theorem scaleAtBaseline_counterexample :
    scaleIngredientAmount "0.125 ml" 1 = "0.13ml" ∧
    ("0.13ml" : String) ≠ "0.125ml" := by
  have h1 : List.takeWhile Char.isDigit "0.125 ml".data = ['0'] := by decide
  have h2 : List.dropWhile Char.isDigit "0.125 ml".data
      = ['.', '1', '2', '5', ' ', 'm', 'l'] := by decide
  have h3 : fracSplit ['.', '1', '2', '5', ' ', 'm', 'l']
      = (['1', '2', '5'], [' ', 'm', 'l']) := by decide
  have hL : parseNumericAmountL "0.125 ml".data = some (1 / 8, ['m', 'l']) := by
    rw [parseNumericAmountL, h1, h2, h3]
    have hd0 : digitsVal ['0'] = 0 := by decide
    have hd125 : digitsVal ['1', '2', '5'] = 125 := by decide
    have hdrop : List.dropWhile Char.isWhitespace [' ', 'm', 'l'] = ['m', 'l'] := by decide
    simp only [List.isEmpty_cons, Bool.false_eq_true, if_false, hd0, hd125, hdrop]
    norm_num
  have hp : parseNumericAmount "0.125 ml" = some (1 / 8, "ml") := by
    rw [parseNumericAmount, hL]
  refine ⟨?_, by decide⟩
  simp only [scaleIngredientAmount, hp]
  have hr : jsRound ((1 : ℚ) / 8 * 1 * 100) = (13 : ℤ) := by
    rw [jsRound]
    norm_num
  rw [hr]
  decide

/-- A concrete recipe whose only ingredient amount separates number and
unit with a space. -/
def baselineRecipe : Recipe :=
  { id := "recipe_baseline", name := "测试", category := .staple, difficulty := .easy,
    servings := 2, prepTime := "5分钟", cookTime := "10分钟",
    ingredients := [{ name := "面粉", amount := "2 cups", notes := none }],
    steps := [{ stepNumber := 1, instruction := "搅拌" }],
    tags := [], cookingMethods := [], nutritionalInfo := none }

/-- C10 amended. Scaling with factor 1 rewrites a
`<number><whitespace><unit>` amount to `<rendering of round(number,2)>`
followed by the unit with the whitespace removed; when the number is
already the canonical rendering of a two-decimal value (`formatCentsNat k`,
e.g. `"2"`), the digits are preserved and only the whitespace is
dropped. Hence scaling a recipe to its own serving count is not the
identity: `baselineRecipe`'s amount `"2 cups"` becomes `"2cups"` while
every other recipe field is unchanged. Amounts whose numeric part is
not canonical are additionally re-rounded/re-rendered (see the
counterexample). -/
theorem scaleAtBaseline_amended :
    (∀ (k : ℕ) (ws unit : List Char), ws ≠ [] →
      (∀ c ∈ ws, c.isWhitespace = true) →
      firstCharFails Char.isWhitespace unit →
      scaleIngredientAmount (String.mk (formatCentsNat k ++ (ws ++ unit))) 1
        = String.mk (formatCentsNat k) ++ String.mk unit) ∧
    ((scaleRecipeIngredients baselineRecipe baselineRecipe.servings).ingredients.map
        Ingredient.amount = ["2cups"] ∧
     baselineRecipe.ingredients.map Ingredient.amount = ["2 cups"] ∧
     scaleRecipeIngredients baselineRecipe baselineRecipe.servings ≠ baselineRecipe ∧
     (scaleRecipeIngredients baselineRecipe baselineRecipe.servings).servings
        = baselineRecipe.servings ∧
     (scaleRecipeIngredients baselineRecipe baselineRecipe.servings).id = baselineRecipe.id ∧
     (scaleRecipeIngredients baselineRecipe baselineRecipe.servings).name
        = baselineRecipe.name ∧
     (scaleRecipeIngredients baselineRecipe baselineRecipe.servings).category
        = baselineRecipe.category ∧
     (scaleRecipeIngredients baselineRecipe baselineRecipe.servings).difficulty
        = baselineRecipe.difficulty ∧
     (scaleRecipeIngredients baselineRecipe baselineRecipe.servings).prepTime
        = baselineRecipe.prepTime ∧
     (scaleRecipeIngredients baselineRecipe baselineRecipe.servings).cookTime
        = baselineRecipe.cookTime ∧
     (scaleRecipeIngredients baselineRecipe baselineRecipe.servings).steps
        = baselineRecipe.steps ∧
     (scaleRecipeIngredients baselineRecipe baselineRecipe.servings).tags
        = baselineRecipe.tags ∧
     (scaleRecipeIngredients baselineRecipe baselineRecipe.servings).cookingMethods
        = baselineRecipe.cookingMethods ∧
     (scaleRecipeIngredients baselineRecipe baselineRecipe.servings).nutritionalInfo
        = baselineRecipe.nutritionalInfo) := by
  have huniv : ∀ (k : ℕ) (ws unit : List Char), ws ≠ [] →
      (∀ c ∈ ws, c.isWhitespace = true) →
      firstCharFails Char.isWhitespace unit →
      scaleIngredientAmount (String.mk (formatCentsNat k ++ (ws ++ unit))) 1
        = String.mk (formatCentsNat k) ++ String.mk unit := by
    intro k ws unit hne hws hwsu
    cases ws with
    | nil => exact absurd rfl hne
    | cons c t =>
        have hc : c.isWhitespace = true := hws c (List.mem_cons_self c t)
        obtain ⟨hcd, hcdot⟩ := isWhitespace_not_digit hc
        have hd : firstCharFails Char.isDigit ((c :: t) ++ unit) := hcd
        have hdot : firstCharFails (fun x => decide (x = '.')) ((c :: t) ++ unit) := by
          show (decide (c = '.')) = false
          simp [hcdot]
        have hparse := parse_format_append k ((c :: t) ++ unit) hd hdot
        have hdrop : ((c :: t) ++ unit).dropWhile Char.isWhitespace = unit :=
          (takeWhile_append_of Char.isWhitespace (c :: t) unit hws hwsu).2
        rw [hdrop] at hparse
        simp only [scaleIngredientAmount, hparse]
        have hval : (k : ℚ) / 100 * 1 * 100 = (k : ℚ) := by ring
        rw [hval, jsRound_natCast, formatCents_of_nonneg (Int.natCast_nonneg k),
          Int.toNat_natCast]
  refine ⟨huniv, ?_⟩
  have hstr : String.mk (formatCentsNat 200 ++ ([' '] ++ ['c', 'u', 'p', 's']))
      = "2 cups" := by decide
  have h2cups := huniv 200 [' '] ['c', 'u', 'p', 's'] (by decide)
    (by decide) (by decide)
  rw [hstr] at h2cups
  have hout : String.mk (formatCentsNat 200) ++ String.mk ['c', 'u', 'p', 's'] = "2cups" := by
    decide
  rw [hout] at h2cups
  have hfac : ((2 : ℕ) : ℚ) / ((2 : ℕ) : ℚ) = 1 := by norm_num
  have hamt : (scaleRecipeIngredients baselineRecipe baselineRecipe.servings).ingredients.map
      Ingredient.amount = ["2cups"] := by
    show [scaleIngredientAmount "2 cups" (((2 : ℕ) : ℚ) / ((2 : ℕ) : ℚ))] = ["2cups"]
    rw [hfac, h2cups]
  have hbase : baselineRecipe.ingredients.map Ingredient.amount = ["2 cups"] := by decide
  have hneq : scaleRecipeIngredients baselineRecipe baselineRecipe.servings
      ≠ baselineRecipe := by
    intro heq
    have hcontr := congrArg (fun r => r.ingredients.map Ingredient.amount) heq
    simp only at hcontr
    rw [hamt, hbase] at hcontr
    exact absurd hcontr (by decide)
  exact ⟨hamt, hbase, hneq, rfl, rfl, rfl, rfl, rfl, rfl, rfl, rfl, rfl, rfl, rfl⟩

theorem scaleAtBaseline_amended_witness :
    scaleIngredientAmount "2 cups" 1 = "2cups" := by
  have h := scaleAtBaseline_amended.1 200 [' '] ['c', 'u', 'p', 's'] (by decide)
    (by decide) (by decide)
  have hstr : String.mk (formatCentsNat 200 ++ ([' '] ++ ['c', 'u', 'p', 's']))
      = "2 cups" := by decide
  rw [hstr] at h
  rw [h]
  decide

/-! ## Meal-plan lemmas (claims C3 and C6) -/

theorem pushMealIf_pred (P : Recipe → Prop) (rand : ℕ → ℕ) (state : List PlannedMeal × ℕ)
    (mealType : MealType) (pool : List Recipe) (servings : ℕ) (note : String)
    (hstate : ∀ m ∈ state.1, P m.recipe) (hpool : ∀ r ∈ pool, P r) :
    ∀ m ∈ (pushMealIf rand state mealType pool servings note).1, P m.recipe := by
  intro m hm
  rw [pushMealIf] at hm
  by_cases h : 0 < pool.length
  · rw [if_pos h] at hm
    rcases List.mem_append.1 hm with h1 | h2
    · exact hstate m h1
    · rw [List.mem_singleton] at h2
      subst h2
      exact hpool _ (selectRandomRecipe_mem rand state.2 (List.length_pos.1 h))
  · rw [if_neg h] at hm
    exact hstate m hm

theorem generateDailyMealPlan_recipes (rand : ℕ → ℕ) (k : ℕ) (recipes : List Recipe)
    (preferences : MealPlanPreferences) (day date : String) :
    ∀ m ∈ (generateDailyMealPlan rand k recipes preferences day date).1.meals,
      m.recipe ∈ recipes := by
  intro m hm
  simp only [generateDailyMealPlan] at hm
  exact pushMealIf_pred (fun r => r ∈ recipes) _ _ _ _ _ _
    (pushMealIf_pred _ _ _ _ _ _ _
      (pushMealIf_pred _ _ _ _ _ _ _
        (by intro mm hmm; cases hmm)
        (fun r hr => List.mem_of_mem_filter hr))
      (fun r hr => List.mem_of_mem_filter hr))
    (fun r hr => List.mem_of_mem_filter hr) m hm

theorem generateDailyMealPlan_nil (rand : ℕ → ℕ) (k : ℕ)
    (preferences : MealPlanPreferences) (day date : String) :
    (generateDailyMealPlan rand k [] preferences day date).1.meals = [] :=
  rfl

theorem foldl_days_length (g : ℕ → ℕ → DailyMealPlan × ℕ) :
    ∀ (l : List ℕ) (acc : List DailyMealPlan × ℕ),
      ((l.foldl (fun a i => ((a.1 ++ [(g a.2 i).1], (g a.2 i).2) : List DailyMealPlan × ℕ))
          acc).1).length = acc.1.length + l.length := by
  intro l
  induction l with
  | nil => intro acc; simp
  | cons x xs ih =>
      intro acc
      rw [List.foldl_cons, ih]
      simp only [List.length_append, List.length_singleton, List.length_cons,
        List.length_nil]
      omega

theorem foldl_days_pred (g : ℕ → ℕ → DailyMealPlan × ℕ) (P : DailyMealPlan → Prop)
    (hg : ∀ s i, P (g s i).1) :
    ∀ (l : List ℕ) (acc : List DailyMealPlan × ℕ), (∀ d ∈ acc.1, P d) →
      ∀ d ∈ (l.foldl (fun a i => ((a.1 ++ [(g a.2 i).1], (g a.2 i).2) :
          List DailyMealPlan × ℕ)) acc).1, P d := by
  intro l
  induction l with
  | nil => intro acc hacc; exact hacc
  | cons x xs ih =>
      intro acc hacc
      rw [List.foldl_cons]
      refine ih _ ?_
      intro d hd
      rcases List.mem_append.1 hd with h1 | h2
      · exact hacc d h1
      · rw [List.mem_singleton] at h2
        subst h2
        exact hg acc.2 x

theorem generateWeeklyMealPlan_length (rand : ℕ → ℕ) (recipes : List Recipe)
    (preferences : MealPlanPreferences) (dates : ℕ → String) (sd ed : String) :
    (generateWeeklyMealPlan rand recipes preferences dates sd ed).dailyPlans.length = 7 := by
  have h := foldl_days_length
    (fun k i => generateDailyMealPlan rand k
      (filterRecipesByPreferences recipes preferences) preferences
      (daysOfWeek.getD i "") (dates i))
    (List.range 7) ([], 0)
  simpa [generateWeeklyMealPlan] using h

theorem generateWeeklyMealPlan_pred (rand : ℕ → ℕ) (recipes : List Recipe)
    (preferences : MealPlanPreferences) (dates : ℕ → String) (sd ed : String)
    (P : DailyMealPlan → Prop)
    (hg : ∀ k i, P (generateDailyMealPlan rand k
      (filterRecipesByPreferences recipes preferences) preferences
      (daysOfWeek.getD i "") (dates i)).1) :
    ∀ d ∈ (generateWeeklyMealPlan rand recipes preferences dates sd ed).dailyPlans, P d := by
  have h := foldl_days_pred
    (fun k i => generateDailyMealPlan rand k
      (filterRecipesByPreferences recipes preferences) preferences
      (daysOfWeek.getD i "") (dates i))
    P hg (List.range 7) ([], 0) (by intro d hd; cases hd)
  simpa [generateWeeklyMealPlan] using h

/-! ## Claim C6: weekly plan shape and filtering -/

/-- C6. Whatever plan duration is requested, a successful
`recommend_meal_plan` call returns a plan with exactly 7 daily plans,
and every planned meal's recipe passed the plan's own preference
filter. -/
theorem weeklyPlan_shape (rand : ℕ → ℕ) (lc : String → String → ℤ)
    (recipes : List Recipe) (preferences : MealPlanPreferences) (dates : ℕ → String)
    (sd ed : String) (planDuration : ℕ) (inclSL cons : Bool)
    (plan : WeeklyMealPlan) (sl : Option ShoppingList)
    (hok : handleRecommendMealPlan rand lc recipes preferences dates sd ed planDuration
      inclSL cons = .ok plan sl) :
    plan.dailyPlans.length = 7 ∧
    ∀ d ∈ plan.dailyPlans, ∀ m ∈ d.meals,
      m.recipe ∈ filterRecipesByPreferences recipes plan.preferences := by
  simp only [handleRecommendMealPlan] at hok
  split at hok
  · injection hok
  · split at hok
    · injection hok
    · injection hok with hplan hsl
      subst hplan
      refine ⟨generateWeeklyMealPlan_length rand recipes preferences dates sd ed, ?_⟩
      have hpref : (generateWeeklyMealPlan rand recipes preferences dates sd ed).preferences
          = preferences := rfl
      rw [hpref]
      exact generateWeeklyMealPlan_pred rand recipes preferences dates sd ed
        (fun d => ∀ m ∈ d.meals, m.recipe ∈ filterRecipesByPreferences recipes preferences)
        (fun k i => generateDailyMealPlan_recipes rand k _ preferences _ _)

/-- Preferences with no restrictions. -/
def plainPrefs : MealPlanPreferences :=
  { numberOfPeople := 2, dietaryRestrictions := none, allergies := none,
    preferredCategories := none, excludedCategories := none, budgetLevel := none,
    cookingSkillLevel := none }

theorem weeklyPlan_shape_witness :
    (generateWeeklyMealPlan (fun _ => 0) [sampleRiceRecipe] plainPrefs (fun _ => "") "" "").dailyPlans.length = 7 ∧
    ∀ d ∈ (generateWeeklyMealPlan (fun _ => 0) [sampleRiceRecipe] plainPrefs
        (fun _ => "") "" "").dailyPlans,
      ∀ m ∈ d.meals, m.recipe ∈ filterRecipesByPreferences [sampleRiceRecipe]
        (generateWeeklyMealPlan (fun _ => 0) [sampleRiceRecipe] plainPrefs
          (fun _ => "") "" "").preferences := by
  have hval : (validateMealPlanPreferences plainPrefs).1 = true := by decide
  have hok : handleRecommendMealPlan (fun _ => 0) (fun _ _ => 0) [sampleRiceRecipe]
      plainPrefs (fun _ => "") "" "" 7 false false
      = .ok (generateWeeklyMealPlan (fun _ => 0) [sampleRiceRecipe] plainPrefs
          (fun _ => "") "" "") none := by
    simp only [handleRecommendMealPlan, hval, Bool.not_true, Bool.false_eq_true, if_false,
      List.length_singleton]
    norm_num
  exact weeklyPlan_shape (fun _ => 0) (fun _ _ => 0) [sampleRiceRecipe] plainPrefs
    (fun _ => "") "" "" 7 false false _ none hok

/-! ## Claim C3: empty post-filter catalog -/

/-- When the preference filter leaves no recipes, each generated day
has no meals at all. -/
theorem generateWeeklyMealPlan_empty (rand : ℕ → ℕ) (recipes : List Recipe)
    (preferences : MealPlanPreferences) (dates : ℕ → String) (sd ed : String)
    (hfil : filterRecipesByPreferences recipes preferences = []) :
    ∀ d ∈ (generateWeeklyMealPlan rand recipes preferences dates sd ed).dailyPlans,
      d.meals = [] := by
  refine generateWeeklyMealPlan_pred rand recipes preferences dates sd ed _ ?_
  intro k i
  rw [hfil]
  exact generateDailyMealPlan_nil rand k preferences _ _

/-- A meat-category recipe, the only member of the catalog used in the
C3 scenario. -/
def meatOnlyRecipe : Recipe :=
  { id := "recipe_meat", name := "红烧肉", category := .meat, difficulty := .medium,
    servings := 2, prepTime := "15分钟", cookTime := "1小时",
    ingredients := [{ name := "猪肉", amount := "500克", notes := none }],
    steps := [{ stepNumber := 1, instruction := "炖煮" }],
    tags := [], cookingMethods := ["炖"], nutritionalInfo := none }

/-- Vegetarian-only preferences. -/
def vegPrefs : MealPlanPreferences :=
  { numberOfPeople := 2, dietaryRestrictions := some ["素食"], allergies := none,
    preferredCategories := none, excludedCategories := none, budgetLevel := none,
    cookingSkillLevel := none }

/-- C3 counterexample: filtering an all-meat catalog with the 素食
restriction leaves no eligible recipe, yet `recommend_meal_plan`
returns a successful plan (with seven meal-less days) — no
`NoEligibleRecipesError` exists anywhere in the code, so the claimed
domain error is never surfaced. -/
theorem noEligible_counterexample :
    filterRecipesByPreferences [meatOnlyRecipe] vegPrefs = [] ∧
    (match handleRecommendMealPlan (fun _ => 0) (fun _ _ => 0) [meatOnlyRecipe] vegPrefs
        (fun _ => "") "" "" 7 false false with
     | .ok plan _ => plan.dailyPlans.length = 7 ∧ ∀ d ∈ plan.dailyPlans, d.meals = []
     | .err _ _ => False) := by
  have hval : (validateMealPlanPreferences vegPrefs).1 = true := by decide
  have hok : handleRecommendMealPlan (fun _ => 0) (fun _ _ => 0) [meatOnlyRecipe]
      vegPrefs (fun _ => "") "" "" 7 false false
      = .ok (generateWeeklyMealPlan (fun _ => 0) [meatOnlyRecipe] vegPrefs
          (fun _ => "") "" "") none := by
    simp only [handleRecommendMealPlan, hval, Bool.not_true, Bool.false_eq_true, if_false,
      List.length_singleton]
    norm_num
  refine ⟨by decide, ?_⟩
  rw [hok]
  exact ⟨generateWeeklyMealPlan_length _ _ _ _ _ _,
    generateWeeklyMealPlan_empty _ _ _ _ _ _ (by decide)⟩

/-- C3 amended. When preference filtering leaves no recipes (and the
raw catalog is non-empty with valid preferences), meal-plan generation
does not surface any error: the handler succeeds and returns a plan
whose seven daily plans all contain zero meals. The code has no
`NoEligibleRecipesError`; only an empty raw catalog is reported, as
`"No recipes available"`. No unhandled exception is possible: the
handler is a total function. -/
theorem noEligible_amended (rand : ℕ → ℕ) (lc : String → String → ℤ)
    (recipes : List Recipe) (preferences : MealPlanPreferences) (dates : ℕ → String)
    (sd ed : String) (planDuration : ℕ) (inclSL cons : Bool)
    (hfil : filterRecipesByPreferences recipes preferences = [])
    (hne : recipes ≠ []) (h1 : 0 < preferences.numberOfPeople)
    (h2 : preferences.numberOfPeople ≤ 20) :
    ∃ plan sl,
      handleRecommendMealPlan rand lc recipes preferences dates sd ed planDuration
        inclSL cons = .ok plan sl ∧
      plan.dailyPlans.length = 7 ∧ ∀ d ∈ plan.dailyPlans, d.meals = [] := by
  have hval : (validateMealPlanPreferences preferences).1 = true := by
    rw [validateMealPlanPreferences]
    have hc1 : ¬preferences.numberOfPeople ≤ 0 := by omega
    have hc2 : ¬20 < preferences.numberOfPeople := by omega
    simp [hc1, hc2]
  have hlen : ¬recipes.length = 0 := by
    simp only [List.length_eq_zero]
    exact hne
  refine ⟨generateWeeklyMealPlan rand recipes preferences dates sd ed,
    (if inclSL = true then
      some (generateShoppingListFromMealPlan lc
        (generateWeeklyMealPlan rand recipes preferences dates sd ed)
        { numberOfPeople := preferences.numberOfPeople, consolidateItems := cons,
          includePriceEstimates := preferences.budgetLevel.isSome,
          excludeCategories := none })
     else none), ?_, ?_, ?_⟩
  · simp only [handleRecommendMealPlan, hval, Bool.not_true, Bool.false_eq_true, if_false,
      hlen]
  · exact generateWeeklyMealPlan_length rand recipes preferences dates sd ed
  · exact generateWeeklyMealPlan_empty rand recipes preferences dates sd ed hfil

theorem noEligible_amended_witness :
    filterRecipesByPreferences [meatOnlyRecipe] vegPrefs = [] ∧
    ([meatOnlyRecipe] : List Recipe) ≠ [] ∧ 0 < vegPrefs.numberOfPeople ∧
    vegPrefs.numberOfPeople ≤ 20 ∧
    ∃ plan sl,
      handleRecommendMealPlan (fun _ => 1) (fun _ _ => 0) [meatOnlyRecipe] vegPrefs
        (fun _ => "d") "s" "e" 7 true true = .ok plan sl ∧
      plan.dailyPlans.length = 7 ∧ ∀ d ∈ plan.dailyPlans, d.meals = [] :=
  ⟨by decide, by decide, by decide, by decide,
    noEligible_amended (fun _ => 1) (fun _ _ => 0) [meatOnlyRecipe] vegPrefs
      (fun _ => "d") "s" "e" 7 true true (by decide) (by decide) (by decide) (by decide)⟩

/-! ## Claim C4: minDishes > maxDishes is rejected before selection -/

/-- C4. With `minDishes > maxDishes` the dish-combination handler
returns the `ValidationError`-style failure immediately; the result is
a constant that does not depend on the catalog or on the random
stream, so no recipe is ever drawn and no selection work happens. -/
theorem dishCombination_validation (rand : ℕ → ℕ) (recipes : List Recipe)
    (preferences : CombinationPreferences)
    (excludeRecipeIds includeRecipeIds : Option (List String))
    (maxDishes minDishes : ℕ) (includeAnalysis : Bool)
    (h : minDishes > maxDishes) :
    handleRecommendDishCombination rand recipes preferences excludeRecipeIds
      includeRecipeIds maxDishes minDishes includeAnalysis
      = .err "Invalid dish count constraints"
          "Minimum dishes cannot be greater than maximum dishes" := by
  rw [handleRecommendDishCombination, if_pos h]

/-- Plain combination preferences for witnesses. -/
def plainCombPrefs : CombinationPreferences :=
  { numberOfPeople := 4, occasion := none, budgetLevel := none,
    dietaryRestrictions := none, preferredFlavors := none, cookingTime := none,
    skillLevel := none, seasonalPreference := none, nutritionalBalance := none }

theorem dishCombination_validation_witness :
    (3 : ℕ) > 2 ∧
    handleRecommendDishCombination (fun _ => 0) [meatOnlyRecipe] plainCombPrefs
      none none 2 3 true
      = .err "Invalid dish count constraints"
          "Minimum dishes cannot be greater than maximum dishes" :=
  ⟨by decide,
    dishCombination_validation (fun _ => 0) [meatOnlyRecipe] plainCombPrefs
      none none 2 3 true (by decide)⟩

/-! ## Selection invariants (claims C5 and C8) -/

/-- The joint invariant of both selection loops: the required recipes
stay selected, every pool member is still selected or available, and no
recipe id occurs twice across the selected and available lists. -/
def selInv (pool required selected available : List Recipe) : Prop :=
  (∀ r ∈ required, r ∈ selected) ∧
  (∀ r ∈ pool, r ∈ selected ∨ r ∈ available) ∧
  (selected.map Recipe.id ++ available.map Recipe.id).Nodup

theorem step_preserves {pool required selected available : List Recipe} {sel : Recipe}
    (hsel : sel ∈ available)
    (hinv : selInv pool required selected available) :
    selInv pool required (selected ++ [sel])
      (available.filter fun x => decide (x.id ≠ sel.id)) := by
  obtain ⟨hreq, hcov, hnd⟩ := hinv
  obtain ⟨hnds, hnda, hdisj⟩ := List.nodup_append.1 hnd
  refine ⟨?_, ?_, ?_⟩
  · intro r hr
    exact List.mem_append_left _ (hreq r hr)
  · intro r hr
    rcases hcov r hr with h | h
    · exact Or.inl (List.mem_append_left _ h)
    · by_cases hid : r.id = sel.id
      · have hrs : r = sel := List.inj_on_of_nodup_map hnda h hsel hid
        subst hrs
        exact Or.inl (List.mem_append_right _ (List.mem_singleton.2 rfl))
      · refine Or.inr (List.mem_filter.2 ⟨h, ?_⟩)
        simp [hid]
  · have hfil_sub : List.Sublist
        ((available.filter fun x => decide (x.id ≠ sel.id)).map Recipe.id)
        (available.map Recipe.id) := (List.filter_sublist _).map _
    have hnfil : ((available.filter fun x => decide (x.id ≠ sel.id)).map Recipe.id).Nodup :=
      List.Nodup.sublist hfil_sub hnda
    have hselfil : sel.id ∉ (available.filter fun x => decide (x.id ≠ sel.id)).map Recipe.id := by
      intro hmem
      rcases List.mem_map.1 hmem with ⟨x, hx, hxid⟩
      have hpx := (List.mem_filter.1 hx).2
      rw [decide_eq_true_iff] at hpx
      exact hpx hxid
    have hmap : (selected ++ [sel]).map Recipe.id = selected.map Recipe.id ++ [sel.id] := by
      simp
    rw [hmap]
    refine List.Nodup.append (List.Nodup.append hnds (List.nodup_singleton _) ?_) hnfil ?_
    · intro a ha hb
      rw [List.mem_singleton] at hb
      subst hb
      exact hdisj ha (List.mem_map_of_mem _ hsel)
    · intro a ha hafil
      rcases List.mem_append.1 ha with h1 | h1
      · exact hdisj h1 (hfil_sub.subset hafil)
      · rw [List.mem_singleton] at h1
        subst h1
        exact hselfil hafil

theorem categoryStep_inv (rand : ℕ → ℕ) (maxD : ℕ) (pool required : List Recipe)
    (st : SelState) (c : RecipeCategory)
    (h : selInv pool required st.selected st.available) :
    selInv pool required (categoryStep rand maxD st c).selected
      (categoryStep rand maxD st c).available := by
  simp only [categoryStep]
  by_cases h1 : maxD ≤ st.selected.length
  · rw [if_pos h1]
    exact h
  · rw [if_neg h1]
    by_cases h2 : c ∈ st.used
    · rw [if_pos h2]
      exact h
    · rw [if_neg h2]
      by_cases h3 : (st.available.filter fun r => decide (r.category = c)).isEmpty
      · rw [if_pos h3]
        exact h
      · rw [if_neg h3]
        have hnnil : st.available.filter (fun r => decide (r.category = c)) ≠ [] := by
          intro hh
          rw [hh] at h3
          exact h3 rfl
        have hselmem :
            selectRandomRecipe rand st.k (st.available.filter fun r => decide (r.category = c))
              ∈ st.available :=
          List.mem_of_mem_filter (selectRandomRecipe_mem rand st.k hnnil)
        exact step_preserves hselmem h

theorem categoryStep_length (rand : ℕ → ℕ) (maxD : ℕ) (st : SelState) (c : RecipeCategory)
    (h : st.selected.length ≤ maxD) :
    (categoryStep rand maxD st c).selected.length ≤ maxD := by
  simp only [categoryStep]
  by_cases h1 : maxD ≤ st.selected.length
  · rw [if_pos h1]
    exact h
  · rw [if_neg h1]
    by_cases h2 : c ∈ st.used
    · rw [if_pos h2]
      exact h
    · rw [if_neg h2]
      by_cases h3 : (st.available.filter fun r => decide (r.category = c)).isEmpty
      · rw [if_pos h3]
        exact h
      · rw [if_neg h3]
        simp only [List.length_append, List.length_singleton]
        omega

theorem foldl_pres {σ α : Type} (f : σ → α → σ) (P : σ → Prop)
    (hf : ∀ s a, P s → P (f s a)) : ∀ (l : List α) (s : σ), P s → P (l.foldl f s) := by
  intro l
  induction l with
  | nil => exact fun s h => h
  | cons x xs ih =>
      intro s h
      rw [List.foldl_cons]
      exact ih _ (hf s x h)

theorem fillWhileAux_inv (rand : ℕ → ℕ) (target : ℤ) (P : List Recipe → List Recipe → Prop)
    (hstep : ∀ selected available (sel : Recipe), sel ∈ available → P selected available →
      P (selected ++ [sel]) (available.filter fun x => decide (x.id ≠ sel.id))) :
    ∀ (fuel : ℕ) (selected available : List Recipe) (k : ℕ), P selected available →
      P (fillWhileAux rand target fuel selected available k).1
        (fillWhileAux rand target fuel selected available k).2.1 := by
  intro fuel
  induction fuel with
  | zero => intro selected available k h; exact h
  | succ fuel ih =>
      intro selected available k h
      rw [fillWhileAux]
      split
      · rename_i hc
        exact ih _ _ _ (hstep _ _ _ (selectRandomRecipe_mem rand k hc.2) h)
      · exact h

theorem fillWhileAux_exit (rand : ℕ → ℕ) (target : ℤ) :
    ∀ (fuel : ℕ) (selected available : List Recipe) (k : ℕ), available.length ≤ fuel →
      target ≤ ((fillWhileAux rand target fuel selected available k).1.length : ℤ)
        ∨ (fillWhileAux rand target fuel selected available k).2.1 = [] := by
  intro fuel
  induction fuel with
  | zero =>
      intro selected available k h
      right
      show available = []
      exact List.eq_nil_of_length_eq_zero (by omega)
  | succ fuel ih =>
      intro selected available k h
      rw [fillWhileAux]
      split
      · rename_i hc
        apply ih
        have hpx : (fun x => decide (x.id ≠ (selectRandomRecipe rand k available).id))
            (selectRandomRecipe rand k available) = false := by simp
        have hlt := @length_filter_lt_of_not available
          (fun x => decide (x.id ≠ (selectRandomRecipe rand k available).id))
          (selectRandomRecipe rand k available) (selectRandomRecipe_mem rand k hc.2) hpx
        omega
      · rename_i hc
        rcases not_and_or.1 hc with h1 | h1
        · exact Or.inl (le_of_not_lt h1)
        · exact Or.inr (not_not.1 h1)

theorem fillWhileAux_length (rand : ℕ → ℕ) (target : ℤ) :
    ∀ (fuel : ℕ) (selected available : List Recipe) (k : ℕ),
      ((fillWhileAux rand target fuel selected available k).1.length : ℤ)
        ≤ max (selected.length : ℤ) target := by
  intro fuel
  induction fuel with
  | zero => intro selected available k; exact le_max_left _ _
  | succ fuel ih =>
      intro selected available k
      rw [fillWhileAux]
      split
      · rename_i hc
        have h := ih (selected ++ [selectRandomRecipe rand k available])
          (available.filter fun x =>
            decide (x.id ≠ (selectRandomRecipe rand k available).id)) (k + 1)
        have hlen : (selected ++ [selectRandomRecipe rand k available]).length
            = selected.length + 1 := by simp
        rw [hlen] at h
        have hlt : (selected.length : ℤ) < target := hc.1
        push_cast at h ⊢
        omega
      · exact le_max_left _ _

theorem categoryStep_selected_mono (rand : ℕ → ℕ) (maxD : ℕ) (st : SelState)
    (c : RecipeCategory) : ∀ r ∈ st.selected, r ∈ (categoryStep rand maxD st c).selected := by
  intro r hr
  simp only [categoryStep]
  split
  · exact hr
  · split
    · exact hr
    · split
      · exact hr
      · exact List.mem_append_left _ hr

theorem fillWhileAux_selected_mono (rand : ℕ → ℕ) (target : ℤ) :
    ∀ (fuel : ℕ) (selected available : List Recipe) (k : ℕ) (r : Recipe), r ∈ selected →
      r ∈ (fillWhileAux rand target fuel selected available k).1 := by
  intro fuel
  induction fuel with
  | zero => intro selected available k r h; exact h
  | succ fuel ih =>
      intro selected available k r h
      rw [fillWhileAux]
      split
      · exact ih _ _ _ _ (List.mem_append_left _ h)
      · exact h

theorem selectDishes_required_sub (rand : ℕ → ℕ) (k : ℕ) (recipes : List Recipe)
    (maxDishes minDishes : ℕ) (includeIds excludeIds : Option (List String)) :
    ∀ r ∈ requiredRecipes recipes includeIds,
      r ∈ (selectDishesForCombination rand k recipes maxDishes minDishes
            includeIds excludeIds).1 := by
  intro r hr
  simp only [selectDishesForCombination, fillWhile]
  apply fillWhileAux_selected_mono
  exact foldl_pres (categoryStep rand maxDishes) (fun st => r ∈ st.selected)
    (fun st c h => categoryStep_selected_mono rand maxDishes st c r h)
    categoryPriority _ hr

theorem excludeApplied_sublist (recipes : List Recipe) (e : Option (List String)) :
    List.Sublist (excludeApplied recipes e) recipes := by
  cases e with
  | none => exact List.Sublist.refl _
  | some l =>
      simp only [excludeApplied]
      split
      · exact List.filter_sublist _
      · exact List.Sublist.refl _

theorem initial_nodup (recipes : List Recipe) (i e : Option (List String))
    (h : (recipes.map Recipe.id).Nodup) :
    ((requiredRecipes recipes i).map Recipe.id
      ++ (availableStart recipes i e).map Recipe.id).Nodup := by
  have hsubE : List.Sublist (excludeApplied recipes e) recipes :=
    excludeApplied_sublist recipes e
  cases i with
  | none =>
      simp only [requiredRecipes, availableStart, List.map_nil, List.nil_append]
      exact List.Nodup.sublist (hsubE.map _) h
  | some l =>
      by_cases hl : 0 < l.length
      · simp only [requiredRecipes, availableStart, if_pos hl]
        refine List.Nodup.append ?_ ?_ ?_
        · exact List.Nodup.sublist ((List.filter_sublist _).map _) h
        · exact List.Nodup.sublist (((List.filter_sublist _).trans hsubE).map _) h
        · intro a ha hb
          rcases List.mem_map.1 ha with ⟨r, hr, hrid⟩
          rcases List.mem_map.1 hb with ⟨x, hx, hxid⟩
          have h1 : decide (r.id ∈ l) = true := (List.mem_filter.1 hr).2
          have h2 : (!(decide (x.id ∈ l))) = true := (List.mem_filter.1 hx).2
          rw [decide_eq_true_iff] at h1
          have h2a : x.id ∉ l := by simpa using h2
          rw [hrid] at h1
          rw [hxid] at h2a
          exact h2a h1
      · simp only [requiredRecipes, availableStart, if_neg hl, List.map_nil, List.nil_append]
        exact List.Nodup.sublist (hsubE.map _) h

theorem assignDishRolesGo_map (rand : ℕ → ℕ) (p : CombinationPreferences) :
    ∀ (l : List Recipe) (i k : ℕ),
      (assignDishRolesGo rand p l i k).1.map RecommendedDish.recipe = l := by
  intro l
  induction l with
  | nil => intro i k; rfl
  | cons r rest ih =>
      intro i k
      simp only [assignDishRolesGo, List.map_cons]
      rw [ih]

theorem assignDishRoles_map_perm (rand : ℕ → ℕ) (k : ℕ) (l : List Recipe)
    (p : CombinationPreferences) :
    List.Perm ((assignDishRoles rand k l p).1.map RecommendedDish.recipe) l := by
  simp only [assignDishRoles]
  have hp := List.mergeSort_perm (assignDishRolesGo rand p l 0 k).1
    (fun a b => decide (a.preparationOrder ≤ b.preparationOrder))
  have hm := hp.map RecommendedDish.recipe
  rwa [assignDishRolesGo_map] at hm

theorem dishes_length_eq (rand : ℕ → ℕ) (k : ℕ) (l : List Recipe)
    (p : CombinationPreferences) : (assignDishRoles rand k l p).1.length = l.length := by
  have hlen := (assignDishRoles_map_perm rand k l p).length_eq
  simpa using hlen

theorem selectDishes_bounds (rand : ℕ → ℕ) (k : ℕ) (recipes : List Recipe)
    (maxDishes minDishes : ℕ) (includeIds excludeIds : Option (List String))
    (hnodup : (recipes.map Recipe.id).Nodup)
    (hminmax : minDishes ≤ maxDishes)
    (hreqlen : (requiredRecipes recipes includeIds).length ≤ maxDishes) :
    (selectDishesForCombination rand k recipes maxDishes minDishes
        includeIds excludeIds).1.length ≤ maxDishes
    ∧ (minDishes ≤ (selectDishesForCombination rand k recipes maxDishes minDishes
          includeIds excludeIds).1.length
        ∨ ∀ r ∈ requiredRecipes recipes includeIds
              ++ availableStart recipes includeIds excludeIds,
            r ∈ (selectDishesForCombination rand k recipes maxDishes minDishes
                  includeIds excludeIds).1)
    ∧ ((selectDishesForCombination rand k recipes maxDishes minDishes
        includeIds excludeIds).1.map Recipe.id).Nodup := by
  have hnd0 := initial_nodup recipes includeIds excludeIds hnodup
  simp only [selectDishesForCombination, fillWhile]
  set req := requiredRecipes recipes includeIds with hreqdef
  set av0 := availableStart recipes includeIds excludeIds with hav0def
  set target : ℤ := max (minDishes : ℤ)
    (min ((maxDishes : ℤ) - (req.length : ℤ))
      (max 0 ((minDishes : ℤ) - (req.length : ℤ)))) with htargetdef
  set st := categoryPriority.foldl (categoryStep rand maxDishes)
    { selected := req, used := req.map (fun r => r.category), available := av0, k := k }
    with hstdef
  have hstP : (selInv (req ++ av0) req st.selected st.available)
      ∧ st.selected.length ≤ maxDishes := by
    rw [hstdef]
    apply foldl_pres (categoryStep rand maxDishes)
      (fun s => selInv (req ++ av0) req s.selected s.available ∧ s.selected.length ≤ maxDishes)
    · intro s c h
      exact ⟨categoryStep_inv rand maxDishes (req ++ av0) req s c h.1,
        categoryStep_length rand maxDishes s c h.2⟩
    · exact ⟨⟨fun r h => h, fun r h => List.mem_append.1 h, hnd0⟩, hreqlen⟩
  have hfinInv : selInv (req ++ av0) req
      (fillWhileAux rand target st.available.length st.selected st.available st.k).1
      (fillWhileAux rand target st.available.length st.selected st.available st.k).2.1 :=
    fillWhileAux_inv rand target (fun s a => selInv (req ++ av0) req s a)
      (fun s a x hx h => step_preserves hx h) _ _ _ _ hstP.1
  have hfinLen := fillWhileAux_length rand target st.available.length st.selected
    st.available st.k
  have hfinExit := fillWhileAux_exit rand target st.available.length st.selected
    st.available st.k le_rfl
  refine ⟨?_, ?_, ?_⟩
  · have h1 : target ≤ (maxDishes : ℤ) := by
      have hge : (0 : ℤ) ≤ (req.length : ℤ) := Int.natCast_nonneg _
      have hmm : (minDishes : ℤ) ≤ (maxDishes : ℤ) := by exact_mod_cast hminmax
      omega
    have h2 : (st.selected.length : ℤ) ≤ (maxDishes : ℤ) := by exact_mod_cast hstP.2
    omega
  · rcases hfinExit with h | h
    · left
      have hle : (minDishes : ℤ) ≤ target := le_max_left _ _
      omega
    · right
      intro r hr
      rcases hfinInv.2.1 r hr with hmem | hmem
      · exact hmem
      · rw [h] at hmem
        cases hmem
  · exact (List.nodup_append.1 hfinInv.2.2).1

theorem sublist_if_filter (l : List Recipe) (c : Prop) [inst : Decidable c]
    (f : Recipe → Bool) : List.Sublist (if c then l.filter f else l) l := by
  split
  · exact List.filter_sublist _
  · exact List.Sublist.refl _

theorem filterRecipesByPreferencesC_sublist (recipes : List Recipe)
    (p : CombinationPreferences) :
    List.Sublist (filterRecipesByPreferencesC recipes p) recipes := by
  rcases p with ⟨np, occ, bud, dr, pf, ct, sk, sp, nb⟩
  cases dr <;> cases sk <;> cases ct <;>
    simp only [filterRecipesByPreferencesC] <;>
    first
      | exact List.Sublist.refl _
      | exact sublist_if_filter _ _ _
      | exact List.filter_sublist _
      | exact (List.filter_sublist _).trans (sublist_if_filter _ _ _)
      | exact (List.filter_sublist _).trans (List.filter_sublist _)
      | exact (List.filter_sublist _).trans
          ((List.filter_sublist _).trans (sublist_if_filter _ _ _))

/-- C5 (corrected). When `minDishes ≤ maxDishes` (after the `|| 3` and
`|| 6` defaulting), the catalog ids are unique, and at most `maxDishes`
recipes survive as must-includes, the generated combination has at most
`maxDishes` dishes, has at least `minDishes` dishes unless the eligible
pool is exhausted (in which case every eligible recipe appears — the
code returns this reduced combination silently, with no
`PartialResultWarning`, which does not exist anywhere in the code), and
contains no recipe id twice. The must-include cap is necessary: see the
counterexample. -/
theorem dishCombination_bounds (rand : ℕ → ℕ) (k : ℕ) (recipes : List Recipe)
    (request : CombinationRequest)
    (hnodup : (recipes.map Recipe.id).Nodup)
    (hminmax : orDefaultNum request.minDishes 3 ≤ orDefaultNum request.maxDishes 6)
    (hreqlen : (requiredRecipes (filterRecipesByPreferencesC recipes request.preferences)
        request.includeRecipeIds).length ≤ orDefaultNum request.maxDishes 6) :
    (generateDishCombination rand k recipes request).dishes.length
        ≤ orDefaultNum request.maxDishes 6
    ∧ (orDefaultNum request.minDishes 3
          ≤ (generateDishCombination rand k recipes request).dishes.length
        ∨ ∀ r ∈ requiredRecipes (filterRecipesByPreferencesC recipes request.preferences)
              request.includeRecipeIds
            ++ availableStart (filterRecipesByPreferencesC recipes request.preferences)
              request.includeRecipeIds request.excludeRecipeIds,
            ∃ d ∈ (generateDishCombination rand k recipes request).dishes, d.recipe = r)
    ∧ ((generateDishCombination rand k recipes request).dishes.map
        (fun d => d.recipe.id)).Nodup := by
  have hfs := filterRecipesByPreferencesC_sublist recipes request.preferences
  have hnodup2 : ((filterRecipesByPreferencesC recipes request.preferences).map
      Recipe.id).Nodup := List.Nodup.sublist (hfs.map _) hnodup
  obtain ⟨h1, h2, h3⟩ := selectDishes_bounds rand k
    (filterRecipesByPreferencesC recipes request.preferences)
    (orDefaultNum request.maxDishes 6) (orDefaultNum request.minDishes 3)
    request.includeRecipeIds request.excludeRecipeIds hnodup2 hminmax hreqlen
  have hperm : List.Perm
      ((generateDishCombination rand k recipes request).dishes.map RecommendedDish.recipe)
      ((selectDishesForCombination rand k
        (filterRecipesByPreferencesC recipes request.preferences)
        (orDefaultNum request.maxDishes 6) (orDefaultNum request.minDishes 3)
        request.includeRecipeIds request.excludeRecipeIds).1) := by
    simp only [generateDishCombination]
    exact assignDishRoles_map_perm _ _ _ _
  have hlen : (generateDishCombination rand k recipes request).dishes.length
      = (selectDishesForCombination rand k
          (filterRecipesByPreferencesC recipes request.preferences)
          (orDefaultNum request.maxDishes 6) (orDefaultNum request.minDishes 3)
          request.includeRecipeIds request.excludeRecipeIds).1.length := by
    have hh := hperm.length_eq
    simpa using hh
  refine ⟨by omega, ?_, ?_⟩
  · rcases h2 with h2 | h2
    · left
      omega
    · right
      intro r hr
      have hmem := hperm.mem_iff.2 (h2 r hr)
      rcases List.mem_map.1 hmem with ⟨d, hd, hdr⟩
      exact ⟨d, hd, hdr⟩
  · have hmperm := hperm.map Recipe.id
    have hnd := hmperm.nodup_iff.2 h3
    rw [List.map_map] at hnd
    exact hnd

/-- A request with every optional field absent (defaults 3..6 dishes). -/
def combReq1 : CombinationRequest :=
  { preferences := plainCombPrefs, excludeRecipeIds := none, includeRecipeIds := none,
    maxDishes := none, minDishes := none }

theorem dishCombination_bounds_witness :
    (generateDishCombination (fun _ => 0) 0 [meatOnlyRecipe] combReq1).dishes.length
        ≤ orDefaultNum combReq1.maxDishes 6
    ∧ (orDefaultNum combReq1.minDishes 3
          ≤ (generateDishCombination (fun _ => 0) 0 [meatOnlyRecipe] combReq1).dishes.length
        ∨ ∀ r ∈ requiredRecipes
              (filterRecipesByPreferencesC [meatOnlyRecipe] combReq1.preferences)
              combReq1.includeRecipeIds
            ++ availableStart (filterRecipesByPreferencesC [meatOnlyRecipe] combReq1.preferences)
              combReq1.includeRecipeIds combReq1.excludeRecipeIds,
            ∃ d ∈ (generateDishCombination (fun _ => 0) 0 [meatOnlyRecipe] combReq1).dishes,
              d.recipe = r)
    ∧ ((generateDishCombination (fun _ => 0) 0 [meatOnlyRecipe] combReq1).dishes.map
        (fun d => d.recipe.id)).Nodup :=
  dishCombination_bounds (fun _ => 0) 0 [meatOnlyRecipe] combReq1
    (by decide) (by decide) (by decide)

/-- Seven distinct meat recipes. -/
def bigCatalog : List Recipe :=
  ["r1", "r2", "r3", "r4", "r5", "r6", "r7"].map fun i => { meatOnlyRecipe with id := i }

/-- All seven ids forced via `includeRecipeIds`, dish counts left at
the 3..6 defaults. -/
def bigRequest : CombinationRequest :=
  { preferences := plainCombPrefs, excludeRecipeIds := none,
    includeRecipeIds := some ["r1", "r2", "r3", "r4", "r5", "r6", "r7"],
    maxDishes := none, minDishes := none }

/-- C5 counterexample: with seven must-include ids and the default
`maxDishes = 6`, the combination holds seven dishes — the upper bound
of the claim fails (must-includes are appended before any bound check),
and no warning of any kind is attached to the result. -/
theorem dishCombination_counterexample :
    orDefaultNum bigRequest.minDishes 3 ≤ orDefaultNum bigRequest.maxDishes 6
    ∧ (bigCatalog.map Recipe.id).Nodup
    ∧ orDefaultNum bigRequest.maxDishes 6
        < (generateDishCombination (fun _ => 0) 0 bigCatalog bigRequest).dishes.length := by
  refine ⟨by decide, by decide, ?_⟩
  have hlen : (generateDishCombination (fun _ => 0) 0 bigCatalog bigRequest).dishes.length
      = (selectDishesForCombination (fun _ => 0) 0
          (filterRecipesByPreferencesC bigCatalog bigRequest.preferences)
          (orDefaultNum bigRequest.maxDishes 6) (orDefaultNum bigRequest.minDishes 3)
          bigRequest.includeRecipeIds bigRequest.excludeRecipeIds).1.length := by
    simp only [generateDishCombination]
    exact dishes_length_eq _ _ _ _
  rw [hlen]
  decide

/-- C8 (corrected). Every recipe whose id is listed in
`includeRecipeIds` AND which survives the preference filter appears in
the generated dishes — this does override `excludeRecipeIds`. But the
must-include recipes are drawn from the preference-filtered set, so a
listed recipe removed by the dietary/skill/time filter is NOT included:
see the counterexample. -/
theorem mustInclude_amended (rand : ℕ → ℕ) (k : ℕ) (recipes : List Recipe)
    (request : CombinationRequest) :
    ∀ r ∈ requiredRecipes (filterRecipesByPreferencesC recipes request.preferences)
        request.includeRecipeIds,
      ∃ d ∈ (generateDishCombination rand k recipes request).dishes, d.recipe = r := by
  intro r hr
  have hsel := selectDishes_required_sub rand k
    (filterRecipesByPreferencesC recipes request.preferences)
    (orDefaultNum request.maxDishes 6) (orDefaultNum request.minDishes 3)
    request.includeRecipeIds request.excludeRecipeIds r hr
  have hperm : List.Perm
      ((generateDishCombination rand k recipes request).dishes.map RecommendedDish.recipe)
      ((selectDishesForCombination rand k
        (filterRecipesByPreferencesC recipes request.preferences)
        (orDefaultNum request.maxDishes 6) (orDefaultNum request.minDishes 3)
        request.includeRecipeIds request.excludeRecipeIds).1) := by
    simp only [generateDishCombination]
    exact assignDishRoles_map_perm _ _ _ _
  have hmem := hperm.mem_iff.2 hsel
  rcases List.mem_map.1 hmem with ⟨d, hd, hdr⟩
  exact ⟨d, hd, hdr⟩

/-- The meat recipe both must-included and must-excluded: inclusion
wins. -/
def includeReq8 : CombinationRequest :=
  { preferences := plainCombPrefs, excludeRecipeIds := some ["recipe_meat"],
    includeRecipeIds := some ["recipe_meat"], maxDishes := none, minDishes := none }

theorem mustInclude_amended_witness :
    meatOnlyRecipe ∈ requiredRecipes
        (filterRecipesByPreferencesC [meatOnlyRecipe] includeReq8.preferences)
        includeReq8.includeRecipeIds
    ∧ ∃ d ∈ (generateDishCombination (fun _ => 0) 0 [meatOnlyRecipe] includeReq8).dishes,
        d.recipe = meatOnlyRecipe :=
  ⟨by decide,
    mustInclude_amended (fun _ => 0) 0 [meatOnlyRecipe] includeReq8 meatOnlyRecipe (by decide)⟩

/-- The meat recipe is must-included but a vegetarian restriction is
active. -/
def vegIncludeReq : CombinationRequest :=
  { preferences := { plainCombPrefs with dietaryRestrictions := some ["素食"] },
    excludeRecipeIds := none, includeRecipeIds := some ["recipe_meat"],
    maxDishes := none, minDishes := none }

/-- C8 counterexample: the catalog recipe `recipe_meat` is listed in
`includeRecipeIds`, yet the vegetarian preference filter removes it
before the must-include list is applied, so the generated combination
is empty — the claim that must-include overrides the preference filter
fails. -/
theorem mustInclude_counterexample :
    vegIncludeReq.includeRecipeIds = some ["recipe_meat"]
    ∧ meatOnlyRecipe.id = "recipe_meat"
    ∧ (generateDishCombination (fun _ => 0) 0 [meatOnlyRecipe] vegIncludeReq).dishes = [] := by
  refine ⟨by decide, by decide, ?_⟩
  simp only [generateDishCombination, assignDishRoles]
  have hsel : (selectDishesForCombination (fun _ => 0) 0
      (filterRecipesByPreferencesC [meatOnlyRecipe] vegIncludeReq.preferences)
      (orDefaultNum vegIncludeReq.maxDishes 6) (orDefaultNum vegIncludeReq.minDishes 3)
      vegIncludeReq.includeRecipeIds vegIncludeReq.excludeRecipeIds).1 = [] := by decide
  rw [hsel]
  simp only [assignDishRolesGo]
  exact (List.mergeSort_perm _ _).eq_nil

/-- C9. For a non-empty combination, the analysis scores follow the
claimed formulas: nutrition 3/3/2/2 with cap 10 implicit in the sum,
flavor harmony `min(10, 2·|flavors|)`, difficulty balance
`max(1, 11 − 2·|distinct difficulties|)`, time efficiency
`max(1, min(10, 10 − avgCook/10))`, and the overall score the rounded
unweighted average of the four. -/
theorem analyzeCombination_spec (c : DishCombination) (h : c.dishes ≠ []) :
    (analyzeCombination c).nutritionalScore
        = (if c.nutritionalBalance.hasProtein then (3 : ℚ) else 0)
          + (if c.nutritionalBalance.hasVegetables then 3 else 0)
          + (if c.nutritionalBalance.hasCarbs then 2 else 0)
          + (if c.nutritionalBalance.isBalanced then 2 else 0)
    ∧ (analyzeCombination c).nutritionalScore ≤ 10
    ∧ (analyzeCombination c).flavorHarmony = min 10 ((c.flavorProfile.length : ℚ) * 2)
    ∧ (analyzeCombination c).difficultyBalance
        = max 1 (11 - ((c.dishes.map fun d => d.recipe.difficulty).dedup.length : ℚ) * 2)
    ∧ (analyzeCombination c).timeEfficiency
        = max 1 (min 10 (10 -
            (((c.dishes.foldl
                (fun sum dish => sum + parseTimeInMinutes dish.recipe.cookTime) 0 : ℕ) : ℚ)
              / (c.dishes.length : ℚ)) / 10))
    ∧ (analyzeCombination c).overallScore
        = jsRound (((analyzeCombination c).nutritionalScore
            + (analyzeCombination c).flavorHarmony
            + (analyzeCombination c).difficultyBalance
            + (analyzeCombination c).timeEfficiency) / 4) := by
  refine ⟨?_, ?_, rfl, rfl, rfl, rfl⟩
  · simp only [analyzeCombination]
    split_ifs <;> norm_num
  · simp only [analyzeCombination]
    split_ifs <;> norm_num

/-- A one-dish combination for the analysis witness. -/
def combo9 : DishCombination :=
  { type := .homeStyle,
    dishes := [{ recipe := meatOnlyRecipe, role := .mainDish, priority := .required,
                 reason := "", preparationOrder := 1, servingOrder := 3 }],
    totalPrepTime := "15分钟", totalCookTime := "1小时", difficulty := .medium,
    servings := 2,
    nutritionalBalance := { hasProtein := true, hasVegetables := false,
                            hasCarbs := false, isBalanced := false },
    flavorProfile := ["咸鲜"], estimatedCost := "40-60元" }

theorem analyzeCombination_spec_witness :
    (analyzeCombination combo9).nutritionalScore
        = (if combo9.nutritionalBalance.hasProtein then (3 : ℚ) else 0)
          + (if combo9.nutritionalBalance.hasVegetables then 3 else 0)
          + (if combo9.nutritionalBalance.hasCarbs then 2 else 0)
          + (if combo9.nutritionalBalance.isBalanced then 2 else 0)
    ∧ (analyzeCombination combo9).nutritionalScore ≤ 10
    ∧ (analyzeCombination combo9).flavorHarmony
        = min 10 ((combo9.flavorProfile.length : ℚ) * 2)
    ∧ (analyzeCombination combo9).difficultyBalance
        = max 1 (11 - ((combo9.dishes.map fun d => d.recipe.difficulty).dedup.length : ℚ) * 2)
    ∧ (analyzeCombination combo9).timeEfficiency
        = max 1 (min 10 (10 -
            (((combo9.dishes.foldl
                (fun sum dish => sum + parseTimeInMinutes dish.recipe.cookTime) 0 : ℕ) : ℚ)
              / (combo9.dishes.length : ℚ)) / 10))
    ∧ (analyzeCombination combo9).overallScore
        = jsRound (((analyzeCombination combo9).nutritionalScore
            + (analyzeCombination combo9).flavorHarmony
            + (analyzeCombination combo9).difficultyBalance
            + (analyzeCombination combo9).timeEfficiency) / 4) :=
  analyzeCombination_spec combo9 (by decide)

/-! ## Claim C7: consolidation under recipe reordering -/

/-- The (recipe, ingredient) occurrences of a recipe list, in
processing order. -/
def occList (recipes : List Recipe) : List (Recipe × Ingredient) :=
  recipes.flatMap fun r => r.ingredients.map fun i => (r, i)

/-- The map key used by `consolidateIngredients` for an occurrence. -/
def keyOf (shouldConsolidate : Bool) (ri : Recipe × Ingredient) : String :=
  if shouldConsolidate then ri.2.name else ri.2.name ++ "_" ++ ri.1.id

/-- The scaled amount an occurrence contributes. -/
def scaledOf (numberOfPeople : ℕ) (ri : Recipe × Ingredient) : String :=
  scaleIngredientAmountSL ri.2.amount ((numberOfPeople : ℚ) / (ri.1.servings : ℚ))

/-- The item created by a first occurrence of a key. -/
def newOcc (n : ℕ) (ri : Recipe × Ingredient) : ShoppingItem :=
  { name := ri.2.name, category := categorizeIngredient ri.2.name,
    quantity := scaledOf n ri,
    estimatedPrice := estimatePrice ri.2.name (categorizeIngredient ri.2.name),
    priority := determinePriority ri.2.name (categorizeIngredient ri.2.name),
    notes := ri.2.notes,
    recipeIds := [ri.1.id], recipeNames := [ri.1.name],
    isPurchased := false, alternatives := getAlternatives ri.2.name }

/-- The in-place update applied by a repeated occurrence of a key. -/
def updateOcc (n : ℕ) (b : Bool) (item : ShoppingItem) (ri : Recipe × Ingredient) :
    ShoppingItem :=
  { item with
    quantity := if b then combineQuantities item.quantity (scaledOf n ri) else scaledOf n ri,
    recipeIds := item.recipeIds ++ [ri.1.id],
    recipeNames := item.recipeNames ++ [ri.1.name] }

/-- One same-key occurrence folded into an optional item. -/
def stepOcc (n : ℕ) (b : Bool) (o : Option ShoppingItem) (ri : Recipe × Ingredient) :
    Option ShoppingItem :=
  match o with
  | some item => some (updateOcc n b item ri)
  | none => some (newOcc n ri)

/-- Fold a run of same-key occurrences. -/
def combineOccs (n : ℕ) (b : Bool) (o : Option ShoppingItem)
    (l : List (Recipe × Ingredient)) : Option ShoppingItem :=
  l.foldl (stepOcc n b) o

theorem consolidateStep_eq (n : ℕ) (b : Bool) (ri : Recipe × Ingredient)
    (m : List (String × ShoppingItem)) :
    consolidateStep n b ri.1 m ri.2 =
      match mapFind m (keyOf b ri) with
      | some _ => mapUpdate m (keyOf b ri) fun it => updateOcc n b it ri
      | none => m ++ [(keyOf b ri, newOcc n ri)] := by
  cases ri with
  | mk r i => rfl

theorem consolidateStep_of_find_none (n : ℕ) (b : Bool) (ri : Recipe × Ingredient)
    (m : List (String × ShoppingItem)) (h : mapFind m (keyOf b ri) = none) :
    consolidateStep n b ri.1 m ri.2 = m ++ [(keyOf b ri, newOcc n ri)] := by
  rw [consolidateStep_eq, h]

theorem consolidateStep_of_find_some (n : ℕ) (b : Bool) (ri : Recipe × Ingredient)
    (m : List (String × ShoppingItem)) (it : ShoppingItem)
    (h : mapFind m (keyOf b ri) = some it) :
    consolidateStep n b ri.1 m ri.2
      = mapUpdate m (keyOf b ri) fun x => updateOcc n b x ri := by
  rw [consolidateStep_eq, h]

theorem mapFind_nil (k : String) : mapFind [] k = none := rfl

theorem mapFind_cons_self (k : String) (v : ShoppingItem)
    (m : List (String × ShoppingItem)) : mapFind ((k, v) :: m) k = some v := by
  rw [mapFind, List.find?_cons_of_pos _ (by simp)]

theorem mapUpdate_singleton (k : String) (v : ShoppingItem) (f : ShoppingItem → ShoppingItem) :
    mapUpdate [(k, v)] k f = [(k, f v)] := by
  simp [mapUpdate]

theorem consolidateIngredients_eq (recipes : List Recipe) (n : ℕ) (b : Bool) :
    consolidateIngredients recipes n b
      = ((occList recipes).foldl (fun m ri => consolidateStep n b ri.1 m ri.2) []).map
          (fun entry => entry.2) := by
  rw [consolidateIngredients]
  have h : ∀ (rs : List Recipe) (m : List (String × ShoppingItem)),
      rs.foldl (fun m recipe => recipe.ingredients.foldl (consolidateStep n b recipe) m) m
        = (occList rs).foldl (fun m ri => consolidateStep n b ri.1 m ri.2) m := by
    intro rs
    induction rs with
    | nil => intro m; rfl
    | cons r rest ih =>
        intro m
        rw [List.foldl_cons, ih]
        conv_rhs => rw [occList, List.flatMap_cons, List.foldl_append, List.foldl_map]
        rfl
  rw [h]

/-- The quantity strings of a shopping list, section by section. -/
def qtys (sl : ShoppingList) : List String :=
  sl.sections.flatMap fun sec => sec.items.map fun it => it.quantity

theorem qtys_single (lc : String → String → ℤ) (recipes : List Recipe)
    (request : ShoppingListRequest) (it : ShoppingItem)
    (hc : consolidateIngredients recipes request.numberOfPeople request.consolidateItems = [it])
    (hex : request.excludeCategories = none) :
    qtys (generateShoppingListFromRecipes lc recipes request) = [it.quantity] := by
  simp only [generateShoppingListFromRecipes, hc, hex, qtys, groupItemsByCategory,
    List.foldl_cons, List.foldl_nil, List.find?_nil, Option.isSome_none, Bool.false_eq_true,
    if_false, List.nil_append, List.map_cons, List.map_nil, List.mergeSort_singleton,
    List.flatMap_cons, List.flatMap_nil, List.append_nil]

/-- Rice by weight. -/
def riceIngA : Ingredient := { name := "大米", amount := "200克", notes := none }

def riceA : Recipe :=
  { id := "recipe_A", name := "白米饭", category := .staple, difficulty := .easy,
    servings := 2, prepTime := "5分钟", cookTime := "30分钟",
    ingredients := [riceIngA],
    steps := [{ stepNumber := 1, instruction := "蒸煮" }],
    tags := [], cookingMethods := ["蒸"], nutritionalInfo := none }

/-- The same ingredient by volume. -/
def riceIngB : Ingredient := { name := "大米", amount := "2杯", notes := none }

def riceB : Recipe :=
  { id := "recipe_B", name := "米粥", category := .staple, difficulty := .easy,
    servings := 2, prepTime := "5分钟", cookTime := "40分钟",
    ingredients := [riceIngB],
    steps := [{ stepNumber := 1, instruction := "熬煮" }],
    tags := [], cookingMethods := ["煮"], nutritionalInfo := none }

/-- Two people, consolidation on, no exclusions. -/
def riceReq : ShoppingListRequest :=
  { numberOfPeople := 2, consolidateItems := true, includePriceEstimates := false,
    excludeCategories := none }

/-- C7 counterexample: the catalogs `[riceA, riceB]` and `[riceB, riceA]`
are permutations sharing the ingredient 大米 with mismatched units
(`200克` vs `2杯`); consolidation concatenates the two quantities in
encounter order, so the two generated lists carry different quantity
strings for the same item. -/
theorem consolidation_order_counterexample :
    [riceA, riceB].Perm [riceB, riceA]
    ∧ qtys (generateShoppingListFromRecipes (fun _ _ => 0) [riceA, riceB] riceReq)
        = ["200克 + 2杯"]
    ∧ qtys (generateShoppingListFromRecipes (fun _ _ => 0) [riceB, riceA] riceReq)
        = ["2杯 + 200克"]
    ∧ ("200克 + 2杯" : String) ≠ "2杯 + 200克" := by
  have p200 : parseNumericAmount "200克" = some (200, "克") :=
    parse_concrete 20000 ['克'] _ (by decide) (by decide) (by decide) (by decide)
      200 (by norm_num)
  have p2 : parseNumericAmount "2杯" = some (2, "杯") :=
    parse_concrete 200 ['杯'] _ (by decide) (by decide) (by decide) (by decide)
      2 (by norm_num)
  have hA : scaledOf 2 (riceA, riceIngA) = "200克" := by
    rw [scaledOf]
    show scaleIngredientAmountSL "200克" (((2 : ℕ) : ℚ) / (((2 : ℕ) : ℕ) : ℚ)) = "200克"
    rw [scaleIngredientAmountSL, p200]
    exact format_concrete _ 20000 (by push_cast; norm_num) "克" _ (by decide)
  have hB : scaledOf 2 (riceB, riceIngB) = "2杯" := by
    rw [scaledOf]
    show scaleIngredientAmountSL "2杯" (((2 : ℕ) : ℚ) / (((2 : ℕ) : ℕ) : ℚ)) = "2杯"
    rw [scaleIngredientAmountSL, p2]
    exact format_concrete _ 200 (by push_cast; norm_num) "杯" _ (by decide)
  have hq1 : combineQuantities "200克" "2杯" = "200克 + 2杯" := by decide
  have hq2 : combineQuantities "2杯" "200克" = "2杯 + 200克" := by decide
  have hocc1 : occList [riceA, riceB] = [(riceA, riceIngA), (riceB, riceIngB)] := rfl
  have hocc2 : occList [riceB, riceA] = [(riceB, riceIngB), (riceA, riceIngA)] := rfl
  have hkey : keyOf true (riceB, riceIngB) = keyOf true (riceA, riceIngA) := rfl
  have hcons1 : consolidateIngredients [riceA, riceB] 2 true
      = [updateOcc 2 true (newOcc 2 (riceA, riceIngA)) (riceB, riceIngB)] := by
    rw [consolidateIngredients_eq, hocc1]
    simp only [List.foldl_cons, List.foldl_nil]
    rw [consolidateStep_of_find_none 2 true (riceA, riceIngA) [] rfl, List.nil_append]
    rw [consolidateStep_of_find_some 2 true (riceB, riceIngB) _
      (newOcc 2 (riceA, riceIngA)) (by rw [hkey]; exact mapFind_cons_self _ _ _)]
    rw [hkey, mapUpdate_singleton]
    rfl
  have hcons2 : consolidateIngredients [riceB, riceA] 2 true
      = [updateOcc 2 true (newOcc 2 (riceB, riceIngB)) (riceA, riceIngA)] := by
    rw [consolidateIngredients_eq, hocc2]
    simp only [List.foldl_cons, List.foldl_nil]
    rw [consolidateStep_of_find_none 2 true (riceB, riceIngB) [] rfl, List.nil_append]
    rw [consolidateStep_of_find_some 2 true (riceA, riceIngA) _
      (newOcc 2 (riceB, riceIngB)) (by rw [← hkey]; exact mapFind_cons_self _ _ _)]
    rw [← hkey, mapUpdate_singleton]
    rfl
  have hv1 : (updateOcc 2 true (newOcc 2 (riceA, riceIngA)) (riceB, riceIngB)).quantity
      = "200克 + 2杯" := by
    show combineQuantities (newOcc 2 (riceA, riceIngA)).quantity (scaledOf 2 (riceB, riceIngB))
      = "200克 + 2杯"
    show combineQuantities (scaledOf 2 (riceA, riceIngA)) (scaledOf 2 (riceB, riceIngB))
      = "200克 + 2杯"
    rw [hA, hB, hq1]
  have hv2 : (updateOcc 2 true (newOcc 2 (riceB, riceIngB)) (riceA, riceIngA)).quantity
      = "2杯 + 200克" := by
    show combineQuantities (scaledOf 2 (riceB, riceIngB)) (scaledOf 2 (riceA, riceIngA))
      = "2杯 + 200克"
    rw [hA, hB, hq2]
  refine ⟨List.Perm.swap riceB riceA [], ?_, ?_, by decide⟩
  · rw [qtys_single (fun _ _ => 0) [riceA, riceB] riceReq _ hcons1 rfl, hv1]
  · rw [qtys_single (fun _ _ => 0) [riceB, riceA] riceReq _ hcons2 rfl, hv2]

theorem mapFind_mapUpdate (m : List (String × ShoppingItem)) (key k : String)
    (f : ShoppingItem → ShoppingItem) :
    mapFind (mapUpdate m key f) k
      = if k = key then Option.map f (mapFind m k) else mapFind m k := by
  have hpred : ((fun entry : String × ShoppingItem => decide (entry.1 = k)) ∘
      fun entry : String × ShoppingItem => if entry.1 = key then (entry.1, f entry.2) else entry)
      = fun entry : String × ShoppingItem => decide (entry.1 = k) := by
    funext e
    by_cases h : e.1 = key <;> simp [h]
  rw [mapUpdate]
  cases hf : m.find? fun entry => decide (entry.1 = k) with
  | none =>
      have hL : (m.map fun entry : String × ShoppingItem =>
          if entry.1 = key then (entry.1, f entry.2) else entry).find?
            (fun entry => decide (entry.1 = k)) = none := by
        rw [List.find?_map, hpred, hf]
        rfl
      rw [mapFind, hL]
      conv_rhs => rw [mapFind, hf]
      by_cases hk : k = key
      · rw [if_pos hk]
        rfl
      · rw [if_neg hk]
  | some e =>
      have he : e.1 = k := by simpa using List.find?_some hf
      have hL : (m.map fun entry : String × ShoppingItem =>
          if entry.1 = key then (entry.1, f entry.2) else entry).find?
            (fun entry => decide (entry.1 = k))
          = some (if e.1 = key then (e.1, f e.2) else e) := by
        rw [List.find?_map, hpred, hf]
        rfl
      rw [mapFind, hL]
      conv_rhs => rw [mapFind, hf]
      by_cases hk : k = key
      · rw [if_pos hk, if_pos (he.trans hk)]
        rfl
      · rw [if_neg hk, if_neg fun hh => hk (he.symm.trans hh)]

theorem mapFind_append_single (m : List (String × ShoppingItem))
    (e : String × ShoppingItem) (k : String) :
    mapFind (m ++ [e]) k
      = match mapFind m k with
        | some v => some v
        | none => if e.1 = k then some e.2 else none := by
  rw [mapFind, List.find?_append]
  cases hf : m.find? fun entry : String × ShoppingItem => decide (entry.1 = k) with
  | some v =>
      conv_rhs => rw [mapFind, hf]
      rfl
  | none =>
      conv_rhs => rw [mapFind, hf]
      by_cases h : e.1 = k <;> simp [h]

theorem mapFind_eq_none_iff (m : List (String × ShoppingItem)) (k : String) :
    mapFind m k = none ↔ k ∉ m.map Prod.fst := by
  rw [mapFind]
  cases hf : m.find? fun entry : String × ShoppingItem => decide (entry.1 = k) with
  | some e =>
      have he : e.1 = k := by simpa using List.find?_some hf
      have hmem : e ∈ m := List.mem_of_find?_eq_some hf
      constructor
      · intro h
        cases h
      · intro h
        exact absurd (he ▸ List.mem_map_of_mem Prod.fst hmem) h
  | none =>
      constructor
      · intro _
        intro hmem
        rcases List.mem_map.1 hmem with ⟨e, he, hek⟩
        have h := List.find?_eq_none.1 hf e he
        exact h (by simp [hek])
      · intro _
        rfl

theorem mapUpdate_keys (m : List (String × ShoppingItem)) (key : String)
    (f : ShoppingItem → ShoppingItem) :
    (mapUpdate m key f).map Prod.fst = m.map Prod.fst := by
  rw [mapUpdate, List.map_map]
  apply List.map_congr_left
  intro e he
  by_cases h : e.1 = key <;> simp [Function.comp, h]

theorem consolidate_fold_find (n : ℕ) (b : Bool) :
    ∀ (os : List (Recipe × Ingredient)) (m : List (String × ShoppingItem)) (k : String),
      mapFind (os.foldl (fun acc ri => consolidateStep n b ri.1 acc ri.2) m) k
        = combineOccs n b (mapFind m k) (os.filter fun ri => decide (keyOf b ri = k)) := by
  intro os
  induction os with
  | nil => intro m k; rfl
  | cons ri os ih =>
      intro m k
      rw [List.foldl_cons, ih]
      by_cases hk : keyOf b ri = k
      · rw [List.filter_cons, if_pos (by simpa using hk)]
        have hstep : mapFind (consolidateStep n b ri.1 m ri.2) k
            = stepOcc n b (mapFind m k) ri := by
          cases hf : mapFind m (keyOf b ri) with
          | some it =>
              rw [consolidateStep_of_find_some n b ri m it hf, mapFind_mapUpdate,
                if_pos hk.symm, ← hk, hf]
              rfl
          | none =>
              rw [consolidateStep_of_find_none n b ri m hf, mapFind_append_single, ← hk, hf]
              simp only [if_pos rfl]
              rfl
        rw [hstep]
        rfl
      · rw [List.filter_cons, if_neg (by simpa using hk)]
        have hstep : mapFind (consolidateStep n b ri.1 m ri.2) k = mapFind m k := by
          cases hf : mapFind m (keyOf b ri) with
          | some it =>
              rw [consolidateStep_of_find_some n b ri m it hf, mapFind_mapUpdate,
                if_neg fun hh => hk hh.symm]
          | none =>
              rw [consolidateStep_of_find_none n b ri m hf, mapFind_append_single]
              cases hmk : mapFind m k with
              | some v => rfl
              | none => simp [hk]
        rw [hstep]

theorem consolidate_fold_keys_nodup (n : ℕ) (b : Bool) :
    ∀ (os : List (Recipe × Ingredient)) (m : List (String × ShoppingItem)),
      (m.map Prod.fst).Nodup →
      ((os.foldl (fun acc ri => consolidateStep n b ri.1 acc ri.2) m).map Prod.fst).Nodup := by
  intro os
  induction os with
  | nil => intro m h; exact h
  | cons ri os ih =>
      intro m h
      rw [List.foldl_cons]
      apply ih
      cases hf : mapFind m (keyOf b ri) with
      | some it =>
          rw [consolidateStep_of_find_some n b ri m it hf, mapUpdate_keys]
          exact h
      | none =>
          rw [consolidateStep_of_find_none n b ri m hf, List.map_append]
          have hnot : keyOf b ri ∉ m.map Prod.fst := (mapFind_eq_none_iff m _).1 hf
          simp only [List.map_cons, List.map_nil]
          refine List.Nodup.append h (List.nodup_singleton _) ?_
          intro a ha hb
          rw [List.mem_singleton] at hb
          subst hb
          exact hnot ha

theorem mapFind_of_mem : ∀ (m : List (String × ShoppingItem)),
    (m.map Prod.fst).Nodup → ∀ e ∈ m, mapFind m e.1 = some e.2 := by
  intro m
  induction m with
  | nil => intro _ e he; cases he
  | cons a m ih =>
      intro hnd e he
      rcases List.mem_cons.1 he with rfl | hmem
      · rw [mapFind, List.find?_cons_of_pos _ (by simp)]
      · rw [List.map_cons, List.nodup_cons] at hnd
        have ha : a.1 ≠ e.1 := by
          intro hh
          exact hnd.1 (hh ▸ List.mem_map_of_mem Prod.fst hmem)
        rw [mapFind, List.find?_cons_of_neg _ (by simpa using ha)]
        exact ih hnd.2 e hmem

/-- The order-insensitive content of an item: everything except the
occurrence-ordered `notes`, `recipeIds` and `recipeNames` fields. -/
def projItem (it : ShoppingItem) :
    String × ShoppingCategory × String × Option ℚ × ShoppingPriority × Bool × List String :=
  (it.name, it.category, it.quantity, it.estimatedPrice, it.priority, it.isPurchased,
    it.alternatives)

/-- A unit is front-safe when re-parsing `rendered number ++ unit`
cannot steal its first character: it starts with no digit, no dot and
no whitespace. -/
def frontSafe (u : String) : Bool :=
  match u.data with
  | [] => true
  | c :: _ => !(c.isDigit || decide (c = '.') || c.isWhitespace)

theorem frontSafe_fails {u : String} (h : frontSafe u = true) :
    firstCharFails Char.isDigit u.data
    ∧ firstCharFails (fun c => decide (c = '.')) u.data
    ∧ firstCharFails Char.isWhitespace u.data := by
  cases hu : u.data with
  | nil => exact ⟨trivial, trivial, trivial⟩
  | cons c t =>
      have h2 : (!(c.isDigit || decide (c = '.') || c.isWhitespace)) = true := by
        rw [← h, frontSafe, hu]
      simp only [Bool.not_eq_eq_eq_not, Bool.not_true, Bool.or_eq_false_iff] at h2
      exact ⟨h2.1.1, h2.1.2, h2.2⟩

theorem parse_cents_shape {c : ℤ} (hc : 0 ≤ c) {u : String} (hu : frontSafe u = true) :
    parseNumericAmount (String.mk (formatCents c) ++ u)
      = some (((c.toNat : ℕ) : ℚ) / 100, u) := by
  obtain ⟨hd, hdot, hws⟩ := frontSafe_fails hu
  have h1 : String.mk (formatCents c) ++ u = String.mk (formatCentsNat c.toNat ++ u.data) := by
    rw [formatCents_of_nonneg hc]
    rfl
  rw [h1, parse_format_append c.toNat u.data hd hdot, dropWhile_of_firstCharFails hws]

/-- The exact cent contribution of an occurrence, recovered from its
scaled amount. -/
def centsOf (n : ℕ) (ri : Recipe × Ingredient) : ℤ :=
  match parseNumericAmount (scaledOf n ri) with
  | some (q, _) => jsRound (q * 100)
  | none => 0

theorem centsOf_of_shape {n : ℕ} {ri : Recipe × Ingredient} {c : ℤ} {u : String}
    (hc : 0 ≤ c) (hu : frontSafe u = true)
    (hshape : scaledOf n ri = String.mk (formatCents c) ++ u) :
    centsOf n ri = c := by
  rw [centsOf, hshape, parse_cents_shape hc hu]
  show jsRound (((c.toNat : ℕ) : ℚ) / 100 * 100) = c
  rw [div_mul_cancel₀ _ (by norm_num : (100 : ℚ) ≠ 0), jsRound_natCast,
    Int.toNat_of_nonneg hc]

theorem combine_cents (C c : ℤ) (hC : 0 ≤ C) (hc : 0 ≤ c) {u : String}
    (hu : frontSafe u = true) :
    combineQuantities (String.mk (formatCents C) ++ u) (String.mk (formatCents c) ++ u)
      = String.mk (formatCents (C + c)) ++ u := by
  rw [combineQuantities, parse_cents_shape hC hu, parse_cents_shape hc hu]
  show (if u = u then
      String.mk (formatCents (jsRound
        ((((C.toNat : ℕ) : ℚ) / 100 + ((c.toNat : ℕ) : ℚ) / 100) * 100))) ++ u
    else String.mk (formatCents C) ++ u ++ " + " ++ (String.mk (formatCents c) ++ u))
    = String.mk (formatCents (C + c)) ++ u
  rw [if_pos rfl]
  have hnat : (C + c).toNat = C.toNat + c.toNat := by omega
  have harith : (((C.toNat : ℕ) : ℚ) / 100 + ((c.toNat : ℕ) : ℚ) / 100) * 100
      = (((C + c).toNat : ℕ) : ℚ) := by
    rw [hnat]
    push_cast
    ring
  rw [harith, jsRound_natCast, Int.toNat_of_nonneg (add_nonneg hC hc)]

theorem combineOccs_some (n : ℕ) (b : Bool) :
    ∀ (l : List (Recipe × Ingredient)) (it : ShoppingItem),
      combineOccs n b (some it) l
        = some (l.foldl (fun acc ri => updateOcc n b acc ri) it) := by
  intro l
  induction l with
  | nil => intro it; rfl
  | cons ri l ih =>
      intro it
      show combineOccs n b (some (updateOcc n b it ri)) l
        = some ((ri :: l).foldl (fun acc x => updateOcc n b acc x) it)
      rw [ih, List.foldl_cons]

theorem combineOccs_none_iff (n : ℕ) (b : Bool) (l : List (Recipe × Ingredient)) :
    combineOccs n b none l = none ↔ l = [] := by
  cases l with
  | nil => exact ⟨fun _ => rfl, fun _ => rfl⟩
  | cons ri l =>
      constructor
      · intro h
        have h2 : combineOccs n b (some (newOcc n ri)) l = none := h
        rw [combineOccs_some] at h2
        cases h2
      · intro h
        cases h

theorem foldl_updateOcc_fields (n : ℕ) (b : Bool) :
    ∀ (l : List (Recipe × Ingredient)) (it : ShoppingItem),
      (l.foldl (fun acc ri => updateOcc n b acc ri) it).name = it.name
      ∧ (l.foldl (fun acc ri => updateOcc n b acc ri) it).category = it.category
      ∧ (l.foldl (fun acc ri => updateOcc n b acc ri) it).estimatedPrice = it.estimatedPrice
      ∧ (l.foldl (fun acc ri => updateOcc n b acc ri) it).priority = it.priority
      ∧ (l.foldl (fun acc ri => updateOcc n b acc ri) it).isPurchased = it.isPurchased
      ∧ (l.foldl (fun acc ri => updateOcc n b acc ri) it).alternatives = it.alternatives
      ∧ (l.foldl (fun acc ri => updateOcc n b acc ri) it).quantity
        = l.foldl (fun q ri =>
            if b then combineQuantities q (scaledOf n ri) else scaledOf n ri) it.quantity := by
  intro l
  induction l with
  | nil => intro it; exact ⟨rfl, rfl, rfl, rfl, rfl, rfl, rfl⟩
  | cons ri l ih =>
      intro it
      simp only [List.foldl_cons]
      have h := ih (updateOcc n b it ri)
      exact ⟨h.1, h.2.1, h.2.2.1, h.2.2.2.1, h.2.2.2.2.1, h.2.2.2.2.2.1,
        h.2.2.2.2.2.2⟩

theorem combine_fold_quantity (n : ℕ) {u : String} (hu : frontSafe u = true) :
    ∀ (l : List (Recipe × Ingredient)) (C : ℤ), 0 ≤ C →
      (∀ ri ∈ l, ∃ c : ℤ, 0 ≤ c ∧ scaledOf n ri = String.mk (formatCents c) ++ u) →
      l.foldl (fun q ri => combineQuantities q (scaledOf n ri))
          (String.mk (formatCents C) ++ u)
        = String.mk (formatCents (C + (l.map (centsOf n)).sum)) ++ u := by
  intro l
  induction l with
  | nil =>
      intro C hC _
      simp
  | cons ri l ih =>
      intro C hC hl
      obtain ⟨c, hc, hshape⟩ := hl ri (List.mem_cons_self _ _)
      simp only [List.foldl_cons]
      rw [hshape, combine_cents C c hC hc hu,
        ih (C + c) (add_nonneg hC hc) (fun x hx => hl x (List.mem_cons_of_mem _ hx))]
      have hsum : C + c + (l.map (centsOf n)).sum
          = C + ((ri :: l).map (centsOf n)).sum := by
        rw [List.map_cons, List.sum_cons, centsOf_of_shape hc hu hshape]
        ring
      rw [hsum]

theorem combineOccs_proj (n : ℕ) {u : String} (hu : frontSafe u = true)
    (l : List (Recipe × Ingredient)) (hl : l ≠ [])
    (name : String) (hname : ∀ ri ∈ l, ri.2.name = name)
    (hsh : ∀ ri ∈ l, ∃ c : ℤ, 0 ≤ c ∧ scaledOf n ri = String.mk (formatCents c) ++ u) :
    Option.map projItem (combineOccs n true none l)
      = some (name, categorizeIngredient name,
          String.mk (formatCents ((l.map (centsOf n)).sum)) ++ u,
          estimatePrice name (categorizeIngredient name),
          determinePriority name (categorizeIngredient name), false,
          getAlternatives name) := by
  cases l with
  | nil => exact absurd rfl hl
  | cons ri l =>
      have h0 : combineOccs n true none (ri :: l)
          = some (l.foldl (fun acc x => updateOcc n true acc x) (newOcc n ri)) := by
        have h1 : combineOccs n true none (ri :: l)
            = combineOccs n true (some (newOcc n ri)) l := rfl
        rw [h1, combineOccs_some]
      rw [h0]
      obtain ⟨hn, hcat, hprice, hprio, hpur, halt, hq⟩ :=
        foldl_updateOcc_fields n true l (newOcc n ri)
      obtain ⟨c, hc, hshape⟩ := hsh ri (List.mem_cons_self _ _)
      have hqty : (l.foldl (fun acc x => updateOcc n true acc x) (newOcc n ri)).quantity
          = String.mk (formatCents (((ri :: l).map (centsOf n)).sum)) ++ u := by
        rw [hq]
        have hfold : (fun q x =>
            if true then combineQuantities q (scaledOf n x) else scaledOf n x)
            = fun q x => combineQuantities q (scaledOf n x) := by
          funext q x
          rw [if_pos rfl]
        rw [hfold]
        have hnq : (newOcc n ri).quantity = String.mk (formatCents c) ++ u := hshape
        rw [hnq, combine_fold_quantity n hu l c hc
          (fun x hx => hsh x (List.mem_cons_of_mem _ hx)),
          List.map_cons, List.sum_cons, centsOf_of_shape hc hu hshape]
      have hname1 : ri.2.name = name := hname ri (List.mem_cons_self _ _)
      show some (projItem (l.foldl (fun acc x => updateOcc n true acc x) (newOcc n ri))) = _
      simp only [projItem]
      rw [hn, hcat, hprice, hprio, hpur, halt, hqty]
      simp only [newOcc]
      rw [hname1]

/-- The projected content of the consolidated item of key `k`. -/
def projOfKey (n : ℕ) (os : List (Recipe × Ingredient)) (k : String) :
    String × ShoppingCategory × String × Option ℚ × ShoppingPriority × Bool × List String :=
  match combineOccs n true none (os.filter fun ri => decide (keyOf true ri = k)) with
  | some it => projItem it
  | none => (k, .others, "", none, .mid, false, [])

theorem consolidate_proj_as_keys (n : ℕ) (recipes : List Recipe) :
    (consolidateIngredients recipes n true).map projItem
      = (((occList recipes).foldl
            (fun acc ri => consolidateStep n true ri.1 acc ri.2) []).map Prod.fst).map
          (projOfKey n (occList recipes)) := by
  rw [consolidateIngredients_eq, List.map_map, List.map_map]
  apply List.map_congr_left
  intro e he
  have hnd := consolidate_fold_keys_nodup n true (occList recipes) [] (by simp)
  have hfind := mapFind_of_mem _ hnd e he
  have hchar := consolidate_fold_find n true (occList recipes) [] e.1
  rw [mapFind_nil, hfind] at hchar
  show projItem e.2 = projOfKey n (occList recipes) e.1
  rw [projOfKey, ← hchar]

theorem consolidate_keys_mem (n : ℕ) (os : List (Recipe × Ingredient)) (k : String) :
    k ∈ (os.foldl (fun acc ri => consolidateStep n true ri.1 acc ri.2) []).map Prod.fst
      ↔ ∃ ri ∈ os, keyOf true ri = k := by
  constructor
  · intro hk
    by_contra hex
    have hfil : (os.filter fun ri => decide (keyOf true ri = k)) = [] := by
      rw [List.filter_eq_nil_iff]
      intro a ha
      simp only [decide_eq_true_iff]
      intro hh
      exact hex ⟨a, ha, hh⟩
    have hchar := consolidate_fold_find n true os [] k
    rw [hfil] at hchar
    exact (mapFind_eq_none_iff _ _).1 hchar hk
  · rintro ⟨ri, hri, hk⟩
    by_contra hnk
    have hnone := (mapFind_eq_none_iff _ k).2 hnk
    have hchar := consolidate_fold_find n true os [] k
    rw [hnone] at hchar
    have hfil := (combineOccs_none_iff n true _).1 hchar.symm
    have hmem : ri ∈ os.filter fun ri => decide (keyOf true ri = k) :=
      List.mem_filter.2 ⟨hri, by simp [hk]⟩
    rw [hfil] at hmem
    cases hmem

theorem consolidate_keys_perm (n : ℕ) {os1 os2 : List (Recipe × Ingredient)}
    (hperm : os1.Perm os2) :
    ((os1.foldl (fun acc ri => consolidateStep n true ri.1 acc ri.2) []).map Prod.fst).Perm
      ((os2.foldl (fun acc ri => consolidateStep n true ri.1 acc ri.2) []).map Prod.fst) := by
  have h1 := consolidate_fold_keys_nodup n true os1 [] (by simp)
  have h2 := consolidate_fold_keys_nodup n true os2 [] (by simp)
  refine (List.Nodup.subperm h1 ?_).antisymm (List.Nodup.subperm h2 ?_)
  · intro k hk
    rw [consolidate_keys_mem] at hk ⊢
    obtain ⟨ri, hri, hkk⟩ := hk
    exact ⟨ri, hperm.mem_iff.1 hri, hkk⟩
  · intro k hk
    rw [consolidate_keys_mem] at hk ⊢
    obtain ⟨ri, hri, hkk⟩ := hk
    exact ⟨ri, hperm.mem_iff.2 hri, hkk⟩

theorem consolidate_proj_perm (n : ℕ) {recipes1 recipes2 : List Recipe}
    (hperm : recipes1.Perm recipes2) (U : String → String)
    (hunits : ∀ ri ∈ occList recipes1, frontSafe (U ri.2.name) = true ∧
      ∃ c : ℤ, 0 ≤ c ∧ scaledOf n ri = String.mk (formatCents c) ++ U ri.2.name) :
    ((consolidateIngredients recipes1 n true).map projItem).Perm
      ((consolidateIngredients recipes2 n true).map projItem) := by
  have hoccs : (occList recipes1).Perm (occList recipes2) := by
    rw [occList, occList]
    exact hperm.flatMap_right _
  have hG : ∀ k, projOfKey n (occList recipes1) k = projOfKey n (occList recipes2) k := by
    intro k
    have hfp : ((occList recipes1).filter fun ri => decide (keyOf true ri = k)).Perm
        ((occList recipes2).filter fun ri => decide (keyOf true ri = k)) := hoccs.filter _
    by_cases hnil : ((occList recipes1).filter fun ri => decide (keyOf true ri = k)) = []
    · have hnil2 : ((occList recipes2).filter fun ri => decide (keyOf true ri = k)) = [] := by
        have hfp2 := hfp
        rw [hnil] at hfp2
        exact hfp2.symm.eq_nil
      rw [projOfKey, projOfKey, hnil, hnil2]
    · have hnil2 : ((occList recipes2).filter fun ri => decide (keyOf true ri = k)) ≠ [] := by
        intro hh
        rw [hh] at hfp
        exact hnil hfp.eq_nil
      have hmem1 : ∀ ri ∈ (occList recipes1).filter fun ri => decide (keyOf true ri = k),
          ri.2.name = k := by
        intro ri hri
        have h := (List.mem_filter.1 hri).2
        rw [decide_eq_true_iff] at h
        exact h
      have hmem2 : ∀ ri ∈ (occList recipes2).filter fun ri => decide (keyOf true ri = k),
          ri.2.name = k := by
        intro ri hri
        have h := (List.mem_filter.1 hri).2
        rw [decide_eq_true_iff] at h
        exact h
      obtain ⟨ri0, hri0⟩ := List.exists_mem_of_ne_nil _ hnil
      have hu1 : frontSafe (U k) = true := by
        have h := (hunits ri0 (List.mem_of_mem_filter hri0)).1
        rw [hmem1 ri0 hri0] at h
        exact h
      have hsh1 : ∀ ri ∈ (occList recipes1).filter fun ri => decide (keyOf true ri = k),
          ∃ c : ℤ, 0 ≤ c ∧ scaledOf n ri = String.mk (formatCents c) ++ U k := by
        intro ri hri
        have h := (hunits ri (List.mem_of_mem_filter hri)).2
        rw [hmem1 ri hri] at h
        exact h
      have hsh2 : ∀ ri ∈ (occList recipes2).filter fun ri => decide (keyOf true ri = k),
          ∃ c : ℤ, 0 ≤ c ∧ scaledOf n ri = String.mk (formatCents c) ++ U k := by
        intro ri hri
        have hmo : ri ∈ occList recipes1 :=
          hoccs.mem_iff.2 (List.mem_of_mem_filter hri)
        have h := (hunits ri hmo).2
        rw [hmem2 ri hri] at h
        exact h
      have hp1 := combineOccs_proj n hu1 _ hnil k hmem1 hsh1
      have hp2 := combineOccs_proj n hu1 _ hnil2 k hmem2 hsh2
      have hsum : (((occList recipes1).filter fun ri =>
            decide (keyOf true ri = k)).map (centsOf n)).sum
          = (((occList recipes2).filter fun ri =>
              decide (keyOf true ri = k)).map (centsOf n)).sum :=
        (hfp.map (centsOf n)).sum_eq
      rw [hsum] at hp1
      rw [projOfKey, projOfKey]
      cases hc1 : combineOccs n true none
          ((occList recipes1).filter fun ri => decide (keyOf true ri = k)) with
      | none => exact absurd ((combineOccs_none_iff n true _).1 hc1) hnil
      | some it1 =>
          cases hc2 : combineOccs n true none
              ((occList recipes2).filter fun ri => decide (keyOf true ri = k)) with
          | none => exact absurd ((combineOccs_none_iff n true _).1 hc2) hnil2
          | some it2 =>
              rw [hc1] at hp1
              rw [hc2] at hp2
              have e1 : projItem it1 = _ := Option.some.inj hp1
              have e2 : projItem it2 = _ := Option.some.inj hp2
              show projItem it1 = projItem it2
              rw [e1, e2]
  rw [consolidate_proj_as_keys n recipes1, consolidate_proj_as_keys n recipes2]
  have hkp := consolidate_keys_perm n hoccs
  have hstep := hkp.map (projOfKey n (occList recipes1))
  have heq : (((occList recipes2).foldl
        (fun acc ri => consolidateStep n true ri.1 acc ri.2) []).map Prod.fst).map
          (projOfKey n (occList recipes1))
      = (((occList recipes2).foldl
          (fun acc ri => consolidateStep n true ri.1 acc ri.2) []).map Prod.fst).map
            (projOfKey n (occList recipes2)) :=
    List.map_congr_left fun k _ => hG k
  rw [heq] at hstep
  exact hstep

/-- One step of the category-bucketing fold of `groupItemsByCategory`. -/
def bucketStep (m : List (ShoppingCategory × List ShoppingItem)) (item : ShoppingItem) :
    List (ShoppingCategory × List ShoppingItem) :=
  if (m.find? fun entry => entry.1 = item.category).isSome then
    m.map fun entry =>
      if entry.1 = item.category then (entry.1, entry.2 ++ [item]) else entry
  else m ++ [(item.category, [item])]

theorem groupItemsByCategory_eq (lc : String → String → ℤ) (items : List ShoppingItem) :
    groupItemsByCategory lc items
      = ((items.foldl bucketStep []).map fun entry =>
          ({ category := entry.1,
             items := entry.2.mergeSort fun a b => decide (lc a.name b.name ≤ 0),
             totalEstimatedCost :=
               entry.2.foldl (fun sum item => sum + item.estimatedPrice.getD 0) 0 } :
            ShoppingSection)).mergeSort
          fun a b => decide (categoryOrderIndex a.category ≤ categoryOrderIndex b.category) :=
  rfl

/-- The items of a bucket map with their bucket category, projected. -/
def tagEntriesP (m : List (ShoppingCategory × List ShoppingItem)) :
    List (ShoppingCategory ×
      (String × ShoppingCategory × String × Option ℚ × ShoppingPriority × Bool × List String)) :=
  m.flatMap fun e => e.2.map fun it => (e.1, projItem it)

theorem bucketStep_keys (m : List (ShoppingCategory × List ShoppingItem))
    (item : ShoppingItem)
    (h : (m.find? fun entry => entry.1 = item.category).isSome = true) :
    (bucketStep m item).map Prod.fst = m.map Prod.fst := by
  rw [bucketStep, if_pos h, List.map_map]
  apply List.map_congr_left
  intro e he
  by_cases hc : e.1 = item.category <;> simp [Function.comp, hc]

theorem bucketStep_keys_nodup (m : List (ShoppingCategory × List ShoppingItem))
    (item : ShoppingItem) (h : (m.map Prod.fst).Nodup) :
    ((bucketStep m item).map Prod.fst).Nodup := by
  by_cases hf : (m.find? fun entry => entry.1 = item.category).isSome = true
  · rw [bucketStep_keys m item hf]
    exact h
  · rw [bucketStep, if_neg hf, List.map_append]
    simp only [List.map_cons, List.map_nil]
    refine List.Nodup.append h (List.nodup_singleton _) ?_
    intro a ha hb
    rw [List.mem_singleton] at hb
    subst hb
    apply hf
    rw [List.find?_isSome]
    rcases List.mem_map.1 ha with ⟨e, he, hek⟩
    exact ⟨e, he, by simp [hek]⟩

theorem bucketStep_keys_mem (m : List (ShoppingCategory × List ShoppingItem))
    (item : ShoppingItem) (c : ShoppingCategory) :
    c ∈ (bucketStep m item).map Prod.fst
      ↔ c ∈ m.map Prod.fst ∨ c = item.category := by
  by_cases hf : (m.find? fun entry => entry.1 = item.category).isSome = true
  · rw [bucketStep_keys m item hf]
    constructor
    · exact Or.inl
    · rintro (h | h)
      · exact h
      · rw [List.find?_isSome] at hf
        obtain ⟨e, he, hek⟩ := hf
        rw [decide_eq_true_iff] at hek
        subst h
        exact hek ▸ List.mem_map_of_mem Prod.fst he
  · rw [bucketStep, if_neg hf, List.map_append]
    simp only [List.map_cons, List.map_nil, List.mem_append, List.mem_singleton]

theorem append_singleton_mid_perm {α : Type} (l r : List α) (x : α) :
    (l ++ ([x] ++ r)).Perm ((l ++ r) ++ [x]) := by
  have h1 : (l ++ ([x] ++ r)).Perm (l ++ (r ++ [x])) :=
    List.Perm.append_left l List.perm_append_comm
  have h2 : l ++ (r ++ [x]) = (l ++ r) ++ [x] := (List.append_assoc l r [x]).symm
  rw [h2] at h1
  exact h1

theorem tagEntriesP_update (c : ShoppingCategory) (item : ShoppingItem) :
    ∀ (m : List (ShoppingCategory × List ShoppingItem)), (m.map Prod.fst).Nodup →
      (m.find? fun entry => entry.1 = c).isSome = true →
      (tagEntriesP (m.map fun e => if e.1 = c then (e.1, e.2 ++ [item]) else e)).Perm
        (tagEntriesP m ++ [(c, projItem item)]) := by
  intro m
  induction m with
  | nil =>
      intro _ h
      simp at h
  | cons e m ih =>
      intro hnd hsome
      rw [List.map_cons, List.nodup_cons] at hnd
      by_cases hc : e.1 = c
      · have htail : (m.map fun x => if x.1 = c then (x.1, x.2 ++ [item]) else x) = m := by
          have hid : ∀ x ∈ m, (if x.1 = c then (x.1, x.2 ++ [item]) else x) = id x := by
            intro x hx
            have hxc : x.1 ≠ c := by
              intro hh
              exact hnd.1 (hc ▸ hh ▸ List.mem_map_of_mem Prod.fst hx)
            rw [if_neg hxc]
            rfl
          rw [List.map_congr_left hid, List.map_id]
        rw [List.map_cons, if_pos hc, htail, tagEntriesP, List.flatMap_cons]
        show (((e.2 ++ [item]).map fun it => (e.1, projItem it)) ++ tagEntriesP m).Perm
          ((e.2.map fun it => (e.1, projItem it)) ++ tagEntriesP m ++ [(c, projItem item)])
        rw [List.map_append, List.map_cons, List.map_nil, List.append_assoc, hc]
        exact append_singleton_mid_perm _ _ _
      · have hsome2 : (m.find? fun entry => entry.1 = c).isSome = true := by
          rw [List.find?_cons_of_neg _ (by simpa using hc)] at hsome
          exact hsome
        have hperm := ih hnd.2 hsome2
        rw [List.map_cons, if_neg hc, tagEntriesP, List.flatMap_cons]
        show ((e.2.map fun it => (e.1, projItem it))
            ++ tagEntriesP (m.map fun x => if x.1 = c then (x.1, x.2 ++ [item]) else x)).Perm
          ((e.2.map fun it => (e.1, projItem it)) ++ tagEntriesP m ++ [(c, projItem item)])
        rw [List.append_assoc]
        exact List.Perm.append_left _ (hperm.trans (List.Perm.refl _))

theorem bucketFold_tag_perm :
    ∀ (items : List ShoppingItem) (m : List (ShoppingCategory × List ShoppingItem)),
      (m.map Prod.fst).Nodup →
      (tagEntriesP (items.foldl bucketStep m)).Perm
        (tagEntriesP m ++ items.map fun it => (it.category, projItem it)) := by
  intro items
  induction items with
  | nil =>
      intro m _
      simp
  | cons item items ih =>
      intro m hnd
      rw [List.foldl_cons]
      have h1 := ih (bucketStep m item) (bucketStep_keys_nodup m item hnd)
      have h2 : (tagEntriesP (bucketStep m item)).Perm
          (tagEntriesP m ++ [(item.category, projItem item)]) := by
        by_cases hf : (m.find? fun entry => entry.1 = item.category).isSome = true
        · have hb : bucketStep m item
              = m.map fun e => if e.1 = item.category then (e.1, e.2 ++ [item]) else e := by
            rw [bucketStep, if_pos hf]
          rw [hb]
          exact tagEntriesP_update item.category item m hnd hf
        · have hb : bucketStep m item = m ++ [(item.category, [item])] := by
            rw [bucketStep, if_neg hf]
          rw [hb, tagEntriesP, List.flatMap_append]
          simp [tagEntriesP]
      refine h1.trans ?_
      refine (h2.append_right _).trans ?_
      rw [List.map_cons, List.append_assoc]
      exact List.Perm.refl _

theorem bucketFold_keys_nodup :
    ∀ (items : List ShoppingItem) (m : List (ShoppingCategory × List ShoppingItem)),
      (m.map Prod.fst).Nodup → ((items.foldl bucketStep m).map Prod.fst).Nodup := by
  intro items
  induction items with
  | nil => intro m h; exact h
  | cons item items ih =>
      intro m h
      rw [List.foldl_cons]
      exact ih _ (bucketStep_keys_nodup m item h)

theorem bucketFold_keys_mem :
    ∀ (items : List ShoppingItem) (m : List (ShoppingCategory × List ShoppingItem))
      (c : ShoppingCategory),
      c ∈ (items.foldl bucketStep m).map Prod.fst
        ↔ c ∈ m.map Prod.fst ∨ c ∈ items.map fun it => it.category := by
  intro items
  induction items with
  | nil =>
      intro m c
      simp
  | cons item items ih =>
      intro m c
      rw [List.foldl_cons, ih, bucketStep_keys_mem, List.map_cons, List.mem_cons]
      tauto

/-- The entries of one section, tagged with its category. -/
def secEntries (sec : ShoppingSection) :
    List (ShoppingCategory ×
      (String × ShoppingCategory × String × Option ℚ × ShoppingPriority × Bool × List String)) :=
  sec.items.map fun it => (sec.category, projItem it)

theorem sections_entries_perm (lc : String → String → ℤ) (items : List ShoppingItem) :
    ((groupItemsByCategory lc items).flatMap secEntries).Perm
      (items.map fun it => (it.category, projItem it)) := by
  rw [groupItemsByCategory_eq]
  have hsort := List.mergeSort_perm
    ((items.foldl bucketStep []).map fun entry =>
      ({ category := entry.1,
         items := entry.2.mergeSort fun a b => decide (lc a.name b.name ≤ 0),
         totalEstimatedCost :=
           entry.2.foldl (fun sum item => sum + item.estimatedPrice.getD 0) 0 } :
        ShoppingSection))
    (fun a b => decide (categoryOrderIndex a.category ≤ categoryOrderIndex b.category))
  refine (hsort.flatMap_right secEntries).trans ?_
  rw [List.flatMap_map]
  have h2 : (((items.foldl bucketStep []).flatMap
      (secEntries ∘ fun entry =>
        ({ category := entry.1,
           items := entry.2.mergeSort fun a b => decide (lc a.name b.name ≤ 0),
           totalEstimatedCost :=
             entry.2.foldl (fun sum item => sum + item.estimatedPrice.getD 0) 0 } :
          ShoppingSection)))).Perm
      (tagEntriesP (items.foldl bucketStep [])) := by
    apply List.Perm.flatMap_left
    intro e he
    show ((e.2.mergeSort fun a b => decide (lc a.name b.name ≤ 0)).map
        fun it => (e.1, projItem it)).Perm (e.2.map fun it => (e.1, projItem it))
    exact (List.mergeSort_perm _ _).map _
  refine h2.trans ?_
  have h3 := bucketFold_tag_perm items [] (by simp)
  simpa using h3

theorem groupCats_sorted (lc : String → String → ℤ) (items : List ShoppingItem) :
    ((groupItemsByCategory lc items).map
      fun sec => categoryOrderIndex sec.category).Pairwise (· ≤ ·) := by
  rw [groupItemsByCategory_eq]
  have htr : ∀ (a b c : ShoppingSection),
      decide (categoryOrderIndex a.category ≤ categoryOrderIndex b.category) = true →
      decide (categoryOrderIndex b.category ≤ categoryOrderIndex c.category) = true →
      decide (categoryOrderIndex a.category ≤ categoryOrderIndex c.category) = true := by
    intro a b c hab hbc
    rw [decide_eq_true_iff] at *
    omega
  have hto : ∀ (a b : ShoppingSection),
      (decide (categoryOrderIndex a.category ≤ categoryOrderIndex b.category)
        || decide (categoryOrderIndex b.category ≤ categoryOrderIndex a.category)) = true := by
    intro a b
    rcases Nat.le_total (categoryOrderIndex a.category) (categoryOrderIndex b.category)
      with h | h <;> simp [h]
  have hs := List.sorted_mergeSort htr hto
    ((items.foldl bucketStep []).map fun entry =>
      ({ category := entry.1,
         items := entry.2.mergeSort fun a b => decide (lc a.name b.name ≤ 0),
         totalEstimatedCost :=
           entry.2.foldl (fun sum item => sum + item.estimatedPrice.getD 0) 0 } :
        ShoppingSection))
  refine List.Pairwise.map _ ?_ hs
  intro a b hab
  exact of_decide_eq_true hab

theorem map_cat_filter (p : ShoppingCategory → Bool) :
    ∀ (l : List ShoppingSection),
      ((l.filter fun sec => p sec.category).map fun sec => sec.category)
        = (l.map fun sec => sec.category).filter p := by
  intro l
  induction l with
  | nil => rfl
  | cons s l ih => by_cases h : p s.category = true <;> simp [List.filter_cons, h, ih]

theorem secEntries_filter (p : ShoppingCategory → Bool) :
    ∀ (l : List ShoppingSection),
      ((l.filter fun sec => p sec.category).flatMap secEntries)
        = (l.flatMap secEntries).filter fun e => p e.1 := by
  intro l
  induction l with
  | nil => rfl
  | cons s l ih =>
      by_cases h : p s.category = true
      · simp only [List.filter_cons, h, if_true, List.flatMap_cons, ih, List.filter_append]
        congr 1
        have hcomp : ((fun e : ShoppingCategory ×
            (String × ShoppingCategory × String × Option ℚ × ShoppingPriority
              × Bool × List String) => p e.1)
            ∘ fun it : ShoppingItem => (s.category, projItem it)) = fun _ => true := by
          funext it
          simp [Function.comp, h]
        rw [secEntries, List.filter_map, hcomp, List.filter_true]
      · simp only [Bool.not_eq_true] at h
        simp only [List.filter_cons, h, Bool.false_eq_true, if_false, List.flatMap_cons, ih,
          List.filter_append]
        have hcomp : ((fun e : ShoppingCategory ×
            (String × ShoppingCategory × String × Option ℚ × ShoppingPriority
              × Bool × List String) => p e.1)
            ∘ fun it : ShoppingItem => (s.category, projItem it)) = fun _ => false := by
          funext it
          simp [Function.comp, h]
        rw [secEntries, List.filter_map, hcomp, List.filter_false, List.map_nil,
          List.nil_append]

theorem categoryOrderIndex_injective : Function.Injective categoryOrderIndex := by
  intro a b h
  cases a <;> cases b <;> revert h <;> decide

theorem groupCats_perm (lc : String → String → ℤ) (items : List ShoppingItem) :
    ((groupItemsByCategory lc items).map fun sec => sec.category).Perm
      ((items.foldl bucketStep []).map Prod.fst) := by
  rw [groupItemsByCategory_eq]
  have hsort := List.mergeSort_perm
    ((items.foldl bucketStep []).map fun entry =>
      ({ category := entry.1,
         items := entry.2.mergeSort fun a b => decide (lc a.name b.name ≤ 0),
         totalEstimatedCost :=
           entry.2.foldl (fun sum item => sum + item.estimatedPrice.getD 0) 0 } :
        ShoppingSection))
    (fun a b => decide (categoryOrderIndex a.category ≤ categoryOrderIndex b.category))
  have h := hsort.map fun sec : ShoppingSection => sec.category
  rw [List.map_map] at h
  exact h

theorem groupCats_eq (lc1 lc2 : String → String → ℤ) {items1 items2 : List ShoppingItem}
    (hperm : (items1.map projItem).Perm (items2.map projItem)) :
    (groupItemsByCategory lc1 items1).map (fun sec => sec.category)
      = (groupItemsByCategory lc2 items2).map (fun sec => sec.category) := by
  have hcatperm : (items1.map fun it => it.category).Perm
      (items2.map fun it => it.category) := by
    have h := hperm.map fun p :
      String × ShoppingCategory × String × Option ℚ × ShoppingPriority × Bool × List String
        => p.2.1
    rw [List.map_map, List.map_map] at h
    exact h
  have hk1 := bucketFold_keys_nodup items1 [] (by simp)
  have hk2 := bucketFold_keys_nodup items2 [] (by simp)
  have hmem : ∀ c, c ∈ (items1.foldl bucketStep []).map Prod.fst
      ↔ c ∈ (items2.foldl bucketStep []).map Prod.fst := by
    intro c
    rw [bucketFold_keys_mem, bucketFold_keys_mem]
    simp only [List.map_nil, List.not_mem_nil, false_or]
    exact ⟨fun h => hcatperm.mem_iff.1 h, fun h => hcatperm.mem_iff.2 h⟩
  have hkeysperm : ((items1.foldl bucketStep []).map Prod.fst).Perm
      ((items2.foldl bucketStep []).map Prod.fst) :=
    (List.Nodup.subperm hk1 fun c hc => (hmem c).1 hc).antisymm
      (List.Nodup.subperm hk2 fun c hc => (hmem c).2 hc)
  have hcp : ((groupItemsByCategory lc1 items1).map fun sec => sec.category).Perm
      ((groupItemsByCategory lc2 items2).map fun sec => sec.category) :=
    ((groupCats_perm lc1 items1).trans hkeysperm).trans (groupCats_perm lc2 items2).symm
  have hidxperm : ((groupItemsByCategory lc1 items1).map
        fun sec => categoryOrderIndex sec.category).Perm
      ((groupItemsByCategory lc2 items2).map fun sec => categoryOrderIndex sec.category) := by
    have h := hcp.map categoryOrderIndex
    rw [List.map_map, List.map_map] at h
    exact h
  have heq := List.eq_of_perm_of_sorted hidxperm (groupCats_sorted lc1 items1)
    (groupCats_sorted lc2 items2)
  have heq2 : ((groupItemsByCategory lc1 items1).map fun sec => sec.category).map
        categoryOrderIndex
      = ((groupItemsByCategory lc2 items2).map fun sec => sec.category).map
        categoryOrderIndex := by
    rw [List.map_map, List.map_map]
    exact heq
  exact List.map_injective_iff.2 categoryOrderIndex_injective heq2

theorem secEntries_filter_excl (excl : List ShoppingCategory) (l : List ShoppingSection) :
    ((l.filter fun sec => !(decide (sec.category ∈ excl))).flatMap secEntries)
      = (l.flatMap secEntries).filter fun e => !(decide (e.1 ∈ excl)) :=
  secEntries_filter (fun c => !(decide (c ∈ excl))) l

theorem map_cat_filter_excl (excl : List ShoppingCategory) (l : List ShoppingSection) :
    ((l.filter fun sec => !(decide (sec.category ∈ excl))).map fun sec => sec.category)
      = (l.map fun sec => sec.category).filter fun c => !(decide (c ∈ excl)) :=
  map_cat_filter (fun c => !(decide (c ∈ excl))) l

/-- C7 (corrected). For permuted recipe lists (and arbitrary, even
different, name comparators) with consolidation on, under the unit
hypothesis — every occurrence scales to a canonically rendered number
followed by a front-safe unit assigned per ingredient name — the two
generated lists have the same multiset of (section category, projected
item) entries, and their sections carry the same categories in the same
canonical order. The projection keeps name, category, quantity string,
estimated price, priority, purchase flag and alternatives, and drops
the occurrence-ordered `recipeIds`/`recipeNames`/`notes` fields.
Without the unit hypothesis the claim fails: see the counterexample. -/
theorem shoppingList_reorder (lc1 lc2 : String → String → ℤ)
    (recipes1 recipes2 : List Recipe) (request : ShoppingListRequest)
    (hcons : request.consolidateItems = true)
    (hperm : recipes1.Perm recipes2) (U : String → String)
    (hunits : ∀ ri ∈ occList recipes1, frontSafe (U ri.2.name) = true ∧
      ∃ c : ℤ, 0 ≤ c ∧ scaledOf request.numberOfPeople ri
        = String.mk (formatCents c) ++ U ri.2.name) :
    Multiset.ofList
        ((generateShoppingListFromRecipes lc1 recipes1 request).sections.flatMap secEntries)
      = Multiset.ofList
        ((generateShoppingListFromRecipes lc2 recipes2 request).sections.flatMap secEntries)
    ∧ (generateShoppingListFromRecipes lc1 recipes1 request).sections.map
        (fun sec => sec.category)
      = (generateShoppingListFromRecipes lc2 recipes2 request).sections.map
        (fun sec => sec.category) := by
  have hitems := consolidate_proj_perm request.numberOfPeople hperm U hunits
  have htag : ((consolidateIngredients recipes1 request.numberOfPeople true).map
        fun it => (it.category, projItem it)).Perm
      ((consolidateIngredients recipes2 request.numberOfPeople true).map
        fun it => (it.category, projItem it)) := by
    have h := hitems.map fun p :
      String × ShoppingCategory × String × Option ℚ × ShoppingPriority × Bool × List String
        => (p.2.1, p)
    rw [List.map_map, List.map_map] at h
    exact h
  have hflat : ∀ lc recipes,
      ((groupItemsByCategory lc
        (consolidateIngredients recipes request.numberOfPeople true)).flatMap
          secEntries).Perm
        ((consolidateIngredients recipes request.numberOfPeople true).map
          fun it => (it.category, projItem it)) :=
    fun lc recipes => sections_entries_perm lc _
  have hentries : ((groupItemsByCategory lc1
        (consolidateIngredients recipes1 request.numberOfPeople true)).flatMap
          secEntries).Perm
      ((groupItemsByCategory lc2
        (consolidateIngredients recipes2 request.numberOfPeople true)).flatMap
          secEntries) :=
    ((hflat lc1 recipes1).trans htag).trans (hflat lc2 recipes2).symm
  have hcats := groupCats_eq lc1 lc2 hitems
  cases hex : request.excludeCategories with
  | none =>
      have hsec : ∀ (lc : String → String → ℤ) (recipes : List Recipe),
          (generateShoppingListFromRecipes lc recipes request).sections
            = groupItemsByCategory lc
                (consolidateIngredients recipes request.numberOfPeople true) := by
        intro lc recipes
        simp [generateShoppingListFromRecipes, hcons, hex]
      rw [hsec lc1 recipes1, hsec lc2 recipes2]
      exact ⟨Multiset.coe_eq_coe.2 hentries, hcats⟩
  | some excl =>
      have hsec : ∀ (lc : String → String → ℤ) (recipes : List Recipe),
          (generateShoppingListFromRecipes lc recipes request).sections
            = (groupItemsByCategory lc
                (consolidateIngredients recipes request.numberOfPeople true)).filter
                  fun sec => !(decide (sec.category ∈ excl)) := by
        intro lc recipes
        simp [generateShoppingListFromRecipes, hcons, hex]
      rw [hsec lc1 recipes1, hsec lc2 recipes2]
      constructor
      · rw [secEntries_filter_excl, secEntries_filter_excl]
        exact Multiset.coe_eq_coe.2 (hentries.filter _)
      · rw [map_cat_filter_excl, map_cat_filter_excl, hcats]

theorem scaledOf_eval {ri : Recipe × Ingredient} {x : ℚ} {u : String} (n : ℕ)
    (hp : parseNumericAmount ri.2.amount = some (x, u)) (c : ℕ)
    (hc : jsRound (x * ((n : ℚ) / (ri.1.servings : ℚ)) * 100) = (c : ℤ)) :
    scaledOf n ri = String.mk (formatCents ((c : ℕ) : ℤ)) ++ u := by
  rw [scaledOf, scaleIngredientAmountSL, hp]
  show String.mk (formatCents (jsRound (x * ((n : ℚ) / (ri.1.servings : ℚ)) * 100))) ++ u
    = String.mk (formatCents ((c : ℕ) : ℤ)) ++ u
  rw [hc]

/-- A second rice recipe with the same unit (克). -/
def riceIngB2 : Ingredient := { name := "大米", amount := "100克", notes := none }

def riceB2 : Recipe :=
  { id := "recipe_B2", name := "米糕", category := .staple, difficulty := .easy,
    servings := 2, prepTime := "5分钟", cookTime := "20分钟",
    ingredients := [riceIngB2],
    steps := [{ stepNumber := 1, instruction := "蒸制" }],
    tags := [], cookingMethods := ["蒸"], nutritionalInfo := none }

theorem shoppingList_reorder_witness :
    riceReq.consolidateItems = true
    ∧ [riceA, riceB2].Perm [riceB2, riceA]
    ∧ (Multiset.ofList
          ((generateShoppingListFromRecipes (fun _ _ => 0) [riceA, riceB2]
            riceReq).sections.flatMap secEntries)
        = Multiset.ofList
          ((generateShoppingListFromRecipes (fun _ _ => 0) [riceB2, riceA]
            riceReq).sections.flatMap secEntries)
      ∧ (generateShoppingListFromRecipes (fun _ _ => 0) [riceA, riceB2]
            riceReq).sections.map (fun sec => sec.category)
        = (generateShoppingListFromRecipes (fun _ _ => 0) [riceB2, riceA]
            riceReq).sections.map (fun sec => sec.category)) := by
  refine ⟨rfl, List.Perm.swap riceB2 riceA [], ?_⟩
  refine shoppingList_reorder (fun _ _ => 0) (fun _ _ => 0) [riceA, riceB2] [riceB2, riceA]
    riceReq rfl (List.Perm.swap riceB2 riceA []) (fun _ => "克") ?_
  have p200 : parseNumericAmount "200克" = some (200, "克") :=
    parse_concrete 20000 ['克'] _ (by decide) (by decide) (by decide) (by decide)
      200 (by norm_num)
  have p100 : parseNumericAmount "100克" = some (100, "克") :=
    parse_concrete 10000 ['克'] _ (by decide) (by decide) (by decide) (by decide)
      100 (by norm_num)
  intro ri hri
  have hmem : ri = (riceA, riceIngA) ∨ ri = (riceB2, riceIngB2) := by
    have h : ri ∈ [(riceA, riceIngA), (riceB2, riceIngB2)] := hri
    simpa using h
  rcases hmem with rfl | rfl
  · refine ⟨by decide, ((20000 : ℕ) : ℤ), by positivity, ?_⟩
    refine scaledOf_eval riceReq.numberOfPeople p200 20000 ?_
    show jsRound (200 * (((2 : ℕ) : ℚ) / (((2 : ℕ) : ℕ) : ℚ)) * 100) = ((20000 : ℕ) : ℤ)
    rw [jsRound]
    push_cast
    norm_num
  · refine ⟨by decide, ((10000 : ℕ) : ℤ), by positivity, ?_⟩
    refine scaledOf_eval riceReq.numberOfPeople p100 10000 ?_
    show jsRound (100 * (((2 : ℕ) : ℚ) / (((2 : ℕ) : ℕ) : ℚ)) * 100) = ((10000 : ℕ) : ℤ)
    rw [jsRound]
    push_cast
    norm_num
